import Mathlib

/-!
# go-http-client: a shallow embedding of `http_client.go`

The Go file is a set of thin helpers over `net/url`, `math/rand`, `fasthttp`,
`net/http`, `mime/multipart`, `os` and a JSON codec.  The helpers themselves
(`TokenAPI`, `EncodeURL`, `GetQuery`, `RandomString`, `PostJSON`,
`PostJSONWithBody`, `PostJSONWithBody2`, `PostFormByFile`, `PostForm`) are
embedded statement by statement.  The pieces of the Go standard library they
call that are pure string functions (`net/url` query escaping, `url.Values`,
`url.Parse`, `URL.String`, the `mime/multipart` writer) are embedded as
executable functions on byte strings; the pieces that talk to the outside
world (network transport, file system, JSON codec, random source) are
parameters of the embedding, and their effects are recorded in an explicit
world value.

The standard library is embedded as of Go 1.26: `url.ParseQuery` refuses a query
of more than 10000 parameters, `url.Parse` accepts brackets in a host only around
an IPv6 address, `mime/multipart` writes `%0A` and `%0D` for line breaks in the
name and the file name of a part, and `http.NewRequest` removes an empty port
from the host of the URL.  A Go pointer that may be nil is an `Option`, and a
result `none` stands for a run-time panic.
-/

namespace HttpClient

/-! ## Go strings -/

/-- A byte. -/
abbrev Byte := Fin 256

/-- A Go `string` (or `[]byte`): a finite sequence of bytes. -/
abbrev GoString := List Byte

/-- The bytes of an ASCII literal (each character reduced modulo 256). -/
def str (s : String) : GoString := s.toList.map (fun c => Fin.ofNat c.toNat)

/-- Go `strings.Cut(s, sep)` for a one-byte separator: the text before the first
`sep`, the text after it, and whether `sep` occurs. -/
def cut (sep : Byte) : GoString → GoString × GoString × Bool
  | [] => ([], [], false)
  | c :: cs =>
    if c = sep then ([], cs, true)
    else ((c :: (cut sep cs).1), (cut sep cs).2.1, (cut sep cs).2.2)

/-- Go `strings.Contains(s, sep)` for a one-byte separator. -/
def containsByte (sep : Byte) (s : GoString) : Bool := s.contains sep

/-- Go byte-wise string order `a < b`, as used by `sort.Strings`. -/
def strLess : GoString → GoString → Bool
  | [], [] => false
  | [], _ :: _ => true
  | _ :: _, [] => false
  | a :: as, b :: bs => if a.val < b.val then true else if b.val < a.val then false else strLess as bs

/-- Errors of the embedded libraries and of this package.  `withStack` is
`errors.WithStack` from `github.com/pkg/errors`, `parseError` is `*url.Error` with
operation "parse". -/
inductive GoError where
  | escapeError (s : GoString)
  | invalidHostError (s : GoString)
  | invalidControlCharacter
  | missingProtocolScheme
  | firstPathSegmentColon
  | missingBracket
  | invalidPort (s : GoString)
  | invalidUserinfo
  | invalidSemicolon
  | tooManyQueryParams
  | invalidHost
  | invalidIPLiteral
  | parseError (url : GoString) (cause : GoError)
  | external (code : Nat)
  | withStack (cause : GoError)
  deriving DecidableEq, Repr

/-! ## `net/url`: escaping -/

/-- The escaping modes of `net/url`. -/
inductive Encoding where
  | encodePath
  | encodePathSegment
  | encodeHost
  | encodeZone
  | encodeUserPassword
  | encodeQueryComponent
  | encodeFragment
  deriving DecidableEq, Repr

/-- ASCII letter or digit. -/
def isAlnum (c : Byte) : Bool :=
  (97 ≤ c.val && c.val ≤ 122) || (65 ≤ c.val && c.val ≤ 90) || (48 ≤ c.val && c.val ≤ 57)

/-- Go `ishex`. -/
def ishex (c : Byte) : Bool :=
  (48 ≤ c.val && c.val ≤ 57) || (97 ≤ c.val && c.val ≤ 102) || (65 ≤ c.val && c.val ≤ 70)

/-- Go `unhex`. -/
def unhex (c : Byte) : Nat :=
  if 48 ≤ c.val && c.val ≤ 57 then c.val - 48
  else if 97 ≤ c.val && c.val ≤ 102 then c.val - 97 + 10
  else if 65 ≤ c.val && c.val ≤ 70 then c.val - 65 + 10
  else 0

/-- Go `upperhex[i]` for `i < 16`, the table "0123456789ABCDEF". -/
def upperhex (i : Nat) : Byte :=
  if i < 10 then Fin.ofNat (48 + i) else Fin.ofNat (55 + i)

/-- Go `shouldEscape(c, mode)`. -/
def shouldEscape (c : Byte) (mode : Encoding) : Bool :=
  if isAlnum c then false
  else if (mode = .encodeHost || mode = .encodeZone) &&
      [33, 36, 38, 39, 40, 41, 42, 43, 44, 59, 61, 58, 91, 93, 60, 62, 34].contains c.val then false
  else if [45, 95, 46, 126].contains c.val then false
  else if [36, 38, 43, 44, 47, 58, 59, 61, 63, 64].contains c.val &&
      mode = .encodePath then c.val = 63
  else if [36, 38, 43, 44, 47, 58, 59, 61, 63, 64].contains c.val &&
      mode = .encodePathSegment then [47, 59, 44, 63].contains c.val
  else if [36, 38, 43, 44, 47, 58, 59, 61, 63, 64].contains c.val &&
      mode = .encodeUserPassword then [64, 47, 63, 58].contains c.val
  else if [36, 38, 43, 44, 47, 58, 59, 61, 63, 64].contains c.val &&
      mode = .encodeQueryComponent then true
  else if [36, 38, 43, 44, 47, 58, 59, 61, 63, 64].contains c.val &&
      mode = .encodeFragment then false
  else if mode = .encodeFragment && [33, 40, 41, 42].contains c.val then false
  else true

/-- One byte of Go `escape(s, mode)`: a space becomes `+` in query mode, a byte
that must be escaped becomes `%XX` in upper-case hex, any other byte is kept. -/
def escapeByte (mode : Encoding) (c : Byte) : GoString :=
  if c = 32 && mode = .encodeQueryComponent then [43]
  else if shouldEscape c mode then [37, upperhex (c.val / 16), upperhex (c.val % 16)]
  else [c]

/-- Go `escape(s, mode)`.  The Go function first counts the bytes to escape in
order to size its buffer and then writes the output byte by byte; the text it
returns is the concatenation below. -/
def escape (s : GoString) (mode : Encoding) : GoString :=
  s.flatMap (escapeByte mode)

/-- Go `QueryEscape`. -/
def QueryEscape (s : GoString) : GoString := escape s .encodeQueryComponent

/-- First pass of Go `unescape(s, mode)`: the validity check of every `%XX`
triple (and of host bytes in the host modes). -/
def unescapeCheck (mode : Encoding) : GoString → Option GoError
  | [] => none
  | c :: rest =>
    if c = 37 then
      match rest with
      | h1 :: h2 :: rest2 =>
        if !(ishex h1 && ishex h2) then some (.escapeError ((c :: rest).take 3))
        else if mode = .encodeHost && unhex h1 < 8 && [c, h1, h2] ≠ [37, 50, 53] then
          some (.escapeError [c, h1, h2])
        else if mode = .encodeZone && [c, h1, h2] ≠ [37, 50, 53] &&
            (unhex h1 * 16 + unhex h2) % 256 ≠ 32 &&
            shouldEscape (Fin.ofNat (unhex h1 * 16 + unhex h2)) .encodeHost then
          some (.escapeError [c, h1, h2])
        else unescapeCheck mode rest2
      | _ => some (.escapeError ((c :: rest).take 3))
    else if c = 43 then unescapeCheck mode rest
    else if (mode = .encodeHost || mode = .encodeZone) && c.val < 128 &&
        shouldEscape c .encodeHost then
      some (.invalidHostError [c])
    else unescapeCheck mode rest

/-- Second pass of Go `unescape(s, mode)`: the decoding loop. -/
def unescapeDecode (mode : Encoding) : GoString → GoString
  | [] => []
  | c :: rest =>
    if c = 37 then
      match rest with
      | h1 :: h2 :: rest2 => Fin.ofNat (unhex h1 * 16 + unhex h2) :: unescapeDecode mode rest2
      | _ => [c]
    else if c = 43 then
      (if mode = .encodeQueryComponent then 32 else 43) :: unescapeDecode mode rest
    else c :: unescapeDecode mode rest

/-- Go `unescape(s, mode)`. -/
def unescape (s : GoString) (mode : Encoding) : GoString × Option GoError :=
  match unescapeCheck mode s with
  | some e => ([], some e)
  | none => (unescapeDecode mode s, none)

/-- Go `QueryUnescape`. -/
def QueryUnescape (s : GoString) : GoString × Option GoError :=
  unescape s .encodeQueryComponent


/-! ## `net/url`: `Values` -/

/-- Go `url.Values`, a `map[string][]string`: an association list whose keys
are pairwise different (every operation below keeps them so). -/
abbrev Values := List (GoString × List GoString)

/-- Map lookup `v[k]` with the `ok` flag: `none` when `k` is not a key. -/
def Values.get : Values → GoString → Option (List GoString)
  | [], _ => none
  | (k1, vs) :: m, k => if k1 = k then some vs else Values.get m k

/-- Map assignment `v[k] = vs`. -/
def Values.put : Values → GoString → List GoString → Values
  | [], k, vs => [(k, vs)]
  | (k1, vs1) :: m, k, vs => if k1 = k then (k1, vs) :: m else (k1, vs1) :: Values.put m k vs

/-- The statement `m[key] = append(m[key], value)` of Go `parseQuery`. -/
def Values.add (m : Values) (key value : GoString) : Values :=
  m.put key ((m.get key).getD [] ++ [value])

/-- Go `Values.Set`: `v[key] = []string{value}`. -/
def Values.Set (m : Values) (key value : GoString) : Values := m.put key [value]

/-- The keys of the map. -/
def Values.keys (m : Values) : List GoString := m.map Prod.fst

/-- Go `sort.Strings`. -/
def sortStrings (keys : List GoString) : List GoString :=
  keys.insertionSort (fun a b => strLess b a = false)

/-- Go `Values.Encode`: the keys sorted, and for every value of every key
`QueryEscape(key) = QueryEscape(value)`, joined by `&`. -/
def Values.Encode (v : Values) : GoString :=
  if v.length = 0 then []
  else
    (sortStrings v.keys).foldl
      (fun buf k =>
        ((v.get k).getD []).foldl
          (fun buf value =>
            (if buf.length > 0 then buf ++ [38] else buf) ++ QueryEscape k ++ [61] ++
              QueryEscape value)
          buf)
      []

/-- The loop of Go `parseQuery(m, query)` (Go 1.17 and later, where a pair that
contains a semicolon is an error), run for at most `fuel` iterations.  Every
iteration of a non-empty `query` removes at least one byte, so `query.length`
iterations are enough. -/
def parseQueryLoop : Nat → Values → Option GoError → GoString → Values × Option GoError
  | 0, m, err, _ => (m, err)
  | fuel + 1, m, err, query =>
    if query = [] then (m, err)
    else if containsByte 59 (cut 38 query).1 then
      parseQueryLoop fuel m (some .invalidSemicolon) (cut 38 query).2.1
    else if (cut 38 query).1 = [] then parseQueryLoop fuel m err (cut 38 query).2.1
    else if (QueryUnescape (cut 61 (cut 38 query).1).1).2 ≠ none then
      parseQueryLoop fuel m
        (if err = none then (QueryUnescape (cut 61 (cut 38 query).1).1).2 else err)
        (cut 38 query).2.1
    else if (QueryUnescape (cut 61 (cut 38 query).1).2.1).2 ≠ none then
      parseQueryLoop fuel m
        (if err = none then (QueryUnescape (cut 61 (cut 38 query).1).2.1).2 else err)
        (cut 38 query).2.1
    else
      parseQueryLoop fuel
        (m.add (QueryUnescape (cut 61 (cut 38 query).1).1).1
          (QueryUnescape (cut 61 (cut 38 query).1).2.1).1)
        err (cut 38 query).2.1

/-- Go `urlParamsWithinMax(params)` with the `GODEBUG` setting `urlmaxqueryparams`
unset: a query may hold at most 10000 parameters. -/
def urlParamsWithinMax (params : Nat) : Bool := params ≤ 10000

/-- Go `parseQuery(m, query)`: a query with too many parameters, counted as the
number of `&` plus one, is refused before anything is read from it; otherwise the
loop runs. -/
def parseQuery (m : Values) (query : GoString) : Values × Option GoError :=
  if !urlParamsWithinMax (query.count 38 + 1) then (m, some .tooManyQueryParams)
  else parseQueryLoop query.length m none query

/-- Go `url.ParseQuery`. -/
def ParseQuery (query : GoString) : Values × Option GoError := parseQuery [] query


/-! ## `net/url`: `URL`, `Parse` and `String` -/

/-- A Go result `(value, error)` of which exactly one is set. -/
inductive Result (α : Type) where
  | ok (value : α)
  | err (e : GoError)
  deriving DecidableEq, Repr

/-- Go `url.Userinfo`. -/
structure Userinfo where
  username : GoString
  password : GoString
  passwordSet : Bool
  deriving DecidableEq, Repr

/-- Go `url.URL`. -/
structure URL where
  Scheme : GoString := []
  Opaque : GoString := []
  User : Option Userinfo := none
  Host : GoString := []
  Path : GoString := []
  RawPath : GoString := []
  OmitHost : Bool := false
  ForceQuery : Bool := false
  RawQuery : GoString := []
  Fragment : GoString := []
  RawFragment : GoString := []
  deriving DecidableEq, Repr

/-- Go `stringContainsCTLByte`. -/
def stringContainsCTLByte (s : GoString) : Bool := s.any (fun b => b.val < 32 || b.val = 127)

/-- Go `strings.ToLower` on the ASCII text of a scheme. -/
def toLowerASCII (s : GoString) : GoString :=
  s.map (fun c => if 65 ≤ c.val && c.val ≤ 90 then Fin.ofNat (c.val + 32) else c)

/-- The loop of Go `getScheme(rawURL)` at index `i`, `pre` holding `rawURL[:i]`
reversed: the scheme and the rest, or the error "missing protocol scheme". -/
def getSchemeLoop (rawURL : GoString) : GoString → GoString → Result (GoString × GoString)
  | _, [] => .ok ([], rawURL)
  | pre, c :: rest =>
    if (97 ≤ c.val && c.val ≤ 122) || (65 ≤ c.val && c.val ≤ 90) then
      getSchemeLoop rawURL (c :: pre) rest
    else if (48 ≤ c.val && c.val ≤ 57) || c = 43 || c = 45 || c = 46 then
      if pre = [] then .ok ([], rawURL) else getSchemeLoop rawURL (c :: pre) rest
    else if c = 58 then
      if pre = [] then .err .missingProtocolScheme else .ok (pre.reverse, rest)
    else .ok ([], rawURL)

/-- Go `getScheme`. -/
def getScheme (rawURL : GoString) : Result (GoString × GoString) :=
  getSchemeLoop rawURL [] rawURL

/-- Go `validUserinfo`. -/
def validUserinfo (s : GoString) : Bool :=
  s.all (fun r => isAlnum r ||
    [45, 46, 95, 58, 126, 33, 36, 38, 39, 40, 41, 42, 43, 44, 59, 61, 37, 64].contains r.val)

/-- Go `validOptionalPort`. -/
def validOptionalPort : GoString → Bool
  | [] => true
  | c :: digits => c = 58 && digits.all (fun b => 48 ≤ b.val && b.val ≤ 57)

/-- Go `strings.LastIndex(s, sep)` for a one-byte separator, as the pair
`(s[:i], s[i+1:])`; `none` when `sep` does not occur. -/
def cutLast (sep : Byte) (s : GoString) : Option (GoString × GoString) :=
  if (cut sep s.reverse).2.2 then some ((cut sep s.reverse).2.1.reverse, (cut sep s.reverse).1.reverse)
  else none

/-- Go `strings.LastIndex(s, sep)` for a one-byte separator, `-1` when `sep` does
not occur. -/
def lastIndex (sep : Byte) (s : GoString) : Int :=
  match cutLast sep s with
  | some (before, _) => before.length
  | none => -1

/-- Go `strings.Index(s, pat)`: the first index at which `pat` occurs. -/
def indexOf (pat : GoString) : GoString → Option Nat
  | [] => if pat = [] then some 0 else none
  | c :: cs =>
    if pat.isPrefixOf (c :: cs) then some 0 else (indexOf pat cs).map (· + 1)

/-- Go `netip.parseIPv4Fields` on the whole text `s`: four decimal fields of at
most 255 without leading zeros, separated by dots.  The state is the value and
the number of digits of the current field, the number of fields completed, and
whether the byte is the first one or follows a dot. -/
def parseIPv4FieldsLoop : GoString → Nat → Nat → Nat → Bool → Bool → Bool
  | [], _, pos, _, _, _ => decide (3 ≤ pos)
  | c :: rest, val, pos, digLen, atStart, prevDot =>
    if 48 ≤ c.val && c.val ≤ 57 then
      if digLen = 1 && val = 0 then false
      else if val * 10 + (c.val - 48) > 255 then false
      else parseIPv4FieldsLoop rest (val * 10 + (c.val - 48)) pos (digLen + 1) false false
    else if c = 46 then
      if atStart || rest = [] || prevDot then false
      else if pos = 3 then false
      else parseIPv4FieldsLoop rest 0 (pos + 1) 0 false true
    else false

/-- Go `netip.parseIPv4Fields`: whether the text is a dotted IPv4 address. -/
def parseIPv4Fields (s : GoString) : Bool := parseIPv4FieldsLoop s 0 0 0 true false

/-- The loop of Go `netip.parseIPv6` over the 16 bytes of the address: `s` is the
text still to read, `i` the number of bytes filled, `ellipsis` the position of
`::`.  The result is the state at the `break`, or `none` when the text is
refused.  Every round fills at least two bytes, so nine rounds are enough. -/
def parseIPv6Loop : Nat → GoString → Nat → Option Nat → Option (GoString × Nat × Option Nat)
  | 0, s, i, ellipsis => some (s, i, ellipsis)
  | fuel + 1, s, i, ellipsis =>
    if ¬ i < 16 then some (s, i, ellipsis)
    else if 5 ≤ (s.takeWhile ishex).length then none
    else if (s.takeWhile ishex).length = 0 then none
    else if (s.dropWhile ishex).head? = some 46 then
      if ellipsis = none && i ≠ 12 then none
      else if i + 4 > 16 then none
      else if parseIPv4Fields s then some ([], i + 4, ellipsis)
      else none
    else if s.dropWhile ishex = [] then some ([], i + 2, ellipsis)
    else if (s.dropWhile ishex).head? ≠ some 58 then none
    else if (s.dropWhile ishex).length = 1 then none
    else if ((s.dropWhile ishex).drop 1).head? = some 58 then
      if ellipsis ≠ none then none
      else if (s.dropWhile ishex).drop 2 = [] then some ([], i + 2, some (i + 2))
      else parseIPv6Loop fuel ((s.dropWhile ishex).drop 2) (i + 2) (some (i + 2))
    else parseIPv6Loop fuel ((s.dropWhile ishex).drop 1) (i + 2) ellipsis

/-- Go `netip.parseIPv6`: whether the text is an IPv6 address, with an optional
non-empty zone after `%`. -/
def parseIPv6 (s : GoString) : Bool :=
  if (cut 37 s).2.2 && (cut 37 s).2.1 = [] then false
  else if ([58, 58] : GoString).isPrefixOf (cut 37 s).1 && (cut 37 s).1.drop 2 = [] then true
  else
    match parseIPv6Loop 9
        (if ([58, 58] : GoString).isPrefixOf (cut 37 s).1 then (cut 37 s).1.drop 2 else (cut 37 s).1)
        0 (if ([58, 58] : GoString).isPrefixOf (cut 37 s).1 then some 0 else none) with
    | none => false
    | some (rest, i, ellipsis) =>
      if rest ≠ [] then false
      else if i < 16 then ellipsis ≠ none
      else ellipsis = none

/-- Go `netip.ParseAddr` as `parseHost` uses it: the first `.`, `:` or `%` of the
text decides how it is read.  The result is `some true` for an IPv4 address,
`some false` for an IPv6 address and `none` for an error. -/
def ParseAddr (s : GoString) : Option Bool :=
  match s.find? (fun c => c = 46 || c = 58 || c = 37) with
  | none => none
  | some c =>
    if c = 46 then (if parseIPv4Fields s then some true else none)
    else if c = 58 then (if parseIPv6 s then some false else none)
    else none

/-- Go `parseHost` (as in Go 1.26): brackets may only enclose an IPv6 address at
the start of the host, and without brackets the port is what follows the first
colon of the host, so that a second colon is refused. -/
def parseHost (host : GoString) : GoString × Option GoError :=
  if lastIndex 91 host > 0 then ([], some .invalidIPLiteral)
  else if lastIndex 91 host = 0 then
    match cutLast 93 host with
    | none => ([], some .missingBracket)
    | some (upto, colonPort) =>
      if !validOptionalPort colonPort then ([], some (.invalidPort colonPort))
      else if (unescape colonPort .encodeHost).2 ≠ none then
        ([], (unescape colonPort .encodeHost).2)
      else
        match
          (match indexOf [37, 50, 53] (upto.drop 1) with
           | some zone =>
             if (unescape ((upto.drop 1).take zone) .encodeHost).2 ≠ none then
               ([], (unescape ((upto.drop 1).take zone) .encodeHost).2)
             else if (unescape ((upto.drop 1).drop zone) .encodeZone).2 ≠ none then
               ([], (unescape ((upto.drop 1).drop zone) .encodeZone).2)
             else
               ((unescape ((upto.drop 1).take zone) .encodeHost).1 ++
                 (unescape ((upto.drop 1).drop zone) .encodeZone).1, none)
           | none => unescape (upto.drop 1) .encodeHost) with
        | (_, some e) => ([], some e)
        | (unescapedHostname, none) =>
          match ParseAddr unescapedHostname with
          | none => ([], some .invalidHost)
          | some true => ([], some .invalidIPLiteral)
          | some false =>
            (91 :: unescapedHostname ++ 93 :: (unescape colonPort .encodeHost).1, none)
  else if containsByte 58 host && !validOptionalPort (58 :: (cut 58 host).2.1) then
    ([], some (.invalidPort (58 :: (cut 58 host).2.1)))
  else unescape host .encodeHost

/-- Go `parseAuthority`. -/
def parseAuthority (authority : GoString) : Result (Option Userinfo × GoString) :=
  match cutLast 64 authority with
  | none =>
    match parseHost authority with
    | (_, some e) => .err e
    | (host, none) => .ok (none, host)
  | some (userinfo, hostpart) =>
    match parseHost hostpart with
    | (_, some e) => .err e
    | (host, none) =>
      if !validUserinfo userinfo then .err .invalidUserinfo
      else if !containsByte 58 userinfo then
        match unescape userinfo .encodeUserPassword with
        | (_, some e) => .err e
        | (name, none) => .ok (some ⟨name, [], false⟩, host)
      else
        match unescape (cut 58 userinfo).1 .encodeUserPassword with
        | (_, some e) => .err e
        | (name, none) =>
          match unescape (cut 58 userinfo).2.1 .encodeUserPassword with
          | (_, some e) => .err e
          | (password, none) => .ok (some ⟨name, password, true⟩, host)

/-- Go `(*URL).setPath`. -/
def URL.setPath (u : URL) (p : GoString) : Result URL :=
  match unescape p .encodePath with
  | (_, some e) => .err e
  | (path, none) =>
    if p = escape path .encodePath then .ok { u with Path := path, RawPath := [] }
    else .ok { u with Path := path, RawPath := p }

/-- Go `(*URL).setFragment`. -/
def URL.setFragment (u : URL) (f : GoString) : Result URL :=
  match unescape f .encodeFragment with
  | (_, some e) => .err e
  | (frag, none) =>
    if f = escape frag .encodeFragment then .ok { u with Fragment := frag, RawFragment := [] }
    else .ok { u with Fragment := frag, RawFragment := f }

/-- Go `parse(rawURL, viaRequest)` with `viaRequest = false`, the only way
`url.Parse` calls it (as in Go 1.19 and later, which record an omitted host). -/
def parse (rawURL : GoString) : Result URL :=
  if stringContainsCTLByte rawURL then .err .invalidControlCharacter
  else if rawURL = [42] then .ok { Path := [42] }
  else
    match getScheme rawURL with
    | .err e => .err e
    | .ok (scheme0, rest0) =>
      let scheme := toLowerASCII scheme0
      let forceQuery : Bool := rest0.getLast? = some 63 && rest0.count 63 = 1
      let rest1 := if forceQuery then rest0.dropLast else (cut 63 rest0).1
      let rawQuery := if forceQuery then [] else (cut 63 rest0).2.1
      let u : URL := { Scheme := scheme, ForceQuery := forceQuery, RawQuery := rawQuery }
      if rest1.head? ≠ some 47 && scheme ≠ [] then .ok { u with Opaque := rest1 }
      else if rest1.head? ≠ some 47 && containsByte 58 (cut 47 rest1).1 then
        .err .firstPathSegmentColon
      else if (scheme ≠ [] || !([47, 47, 47] : GoString).isPrefixOf rest1) &&
          ([47, 47] : GoString).isPrefixOf rest1 then
        let authority := (cut 47 (rest1.drop 2)).1
        let rest2 := if (cut 47 (rest1.drop 2)).2.2 then 47 :: (cut 47 (rest1.drop 2)).2.1 else []
        match parseAuthority authority with
        | .err e => .err e
        | .ok (user, host) => URL.setPath { u with User := user, Host := host } rest2
      else if scheme ≠ [] && rest1.head? = some 47 then
        URL.setPath { u with OmitHost := true } rest1
      else URL.setPath u rest1

/-- Go `url.Parse`. -/
def Parse (rawURL : GoString) : Result URL :=
  match parse (cut 35 rawURL).1 with
  | .err e => .err (.parseError (cut 35 rawURL).1 e)
  | .ok url =>
    if (cut 35 rawURL).2.1 = [] then .ok url
    else
      match url.setFragment (cut 35 rawURL).2.1 with
      | .err e => .err (.parseError rawURL e)
      | .ok url2 => .ok url2

/-- Go `validEncoded`. -/
def validEncoded (s : GoString) (mode : Encoding) : Bool :=
  s.all (fun c =>
    [33, 36, 38, 39, 40, 41, 42, 43, 44, 59, 61, 58, 64, 91, 93, 37].contains c.val ||
      !shouldEscape c mode)

/-- Go `(*URL).EscapedPath`. -/
def URL.EscapedPath (u : URL) : GoString :=
  if u.RawPath ≠ [] && validEncoded u.RawPath .encodePath &&
      unescape u.RawPath .encodePath = (u.Path, none) then u.RawPath
  else if u.Path = [42] then [42]
  else escape u.Path .encodePath

/-- Go `(*URL).EscapedFragment`. -/
def URL.EscapedFragment (u : URL) : GoString :=
  if u.RawFragment ≠ [] && validEncoded u.RawFragment .encodeFragment &&
      unescape u.RawFragment .encodeFragment = (u.Fragment, none) then u.RawFragment
  else escape u.Fragment .encodeFragment

/-- Go `(*Userinfo).String` for a non-nil receiver. -/
def Userinfo.String (ui : Userinfo) : GoString :=
  escape ui.username .encodeUserPassword ++
    (if ui.passwordSet then 58 :: escape ui.password .encodeUserPassword else [])

/-- Go `(*URL).String`, first step: the scheme and its colon. -/
def URL.schemePart (u : URL) : GoString :=
  if u.Scheme ≠ [] then u.Scheme ++ [58] else []

/-- Go `(*URL).String`, second step (when `Opaque` is empty): `//`, the user
information and the escaped host. -/
def URL.authorityPart (u : URL) : GoString :=
  if u.Scheme ≠ [] || u.Host ≠ [] || u.User ≠ none then
    if u.OmitHost && u.Host = [] && u.User = none then []
    else
      (if u.Host ≠ [] || u.Path ≠ [] || u.User ≠ none then [47, 47] else [])
        ++ (match u.User with
            | some ui => ui.String ++ [64]
            | none => [])
        ++ (if u.Host ≠ [] then escape u.Host .encodeHost else [])
  else []

/-- Go `(*URL).String`, third step: the `/` written between a host and a path
that does not start with one. -/
def URL.slashPart (u : URL) : GoString :=
  if u.EscapedPath ≠ [] && u.EscapedPath.head? ≠ some 47 && u.Host ≠ [] then [47] else []

/-- Go `(*URL).String`, fourth step: `./` before a path whose first segment
contains a colon, when nothing has been written so far (`buf.Len() == 0`). -/
def URL.dotPart (u : URL) : GoString :=
  if (u.schemePart ++ u.authorityPart ++ u.slashPart).length = 0 &&
      containsByte 58 (cut 47 u.EscapedPath).1 then [46, 47] else []

/-- The part of Go `(*URL).String` written before the query: scheme, then the
opaque text or authority and path. -/
def URL.beforeQuery (u : URL) : GoString :=
  if u.Opaque ≠ [] then u.schemePart ++ u.Opaque
  else u.schemePart ++ u.authorityPart ++ u.slashPart ++ u.dotPart ++ u.EscapedPath

/-- Go `(*URL).String`. -/
def URL.String (u : URL) : GoString :=
  u.beforeQuery ++ (if u.ForceQuery || u.RawQuery ≠ [] then 63 :: u.RawQuery else [])
    ++ (if u.Fragment ≠ [] then 35 :: u.EscapedFragment else [])

/-- Go `(*URL).Query`: `ParseQuery(u.RawQuery)` with the error dropped. -/
def URL.Query (u : URL) : Values := (ParseQuery u.RawQuery).1


/-! ## `http_client.go`: URL helpers -/

/-- Go `RequestQueries`, a `map[string]string`, given by its entries in the order
in which `range` visits them.  The keys of a Go map are pairwise different; the
order of the entries is arbitrary. -/
abbrev RequestQueries := List (GoString × GoString)

/-- Function `EncodeURL` of `http_client.go`: the returned string and the error. -/
def EncodeURL (api : GoString) (params : RequestQueries) : GoString × Option GoError :=
  match Parse api with
  | .err e => ([], some (.withStack e))
  | .ok urlParse =>
    let query := params.foldl (fun q kv => q.Set kv.1 kv.2) urlParse.Query
    (({ urlParse with RawQuery := query.Encode } : URL).String, none)

/-- Function `TokenAPI` of `http_client.go`. -/
def TokenAPI (api token : GoString) : GoString × Option GoError :=
  EncodeURL api [(str "access_token", token)]

/-- Go `http.Request`, of which `GetQuery` reads the field `URL` only; the field is
a pointer and may be nil. -/
structure Request where
  URL : Option URL
  deriving DecidableEq, Repr

/-- Function `GetQuery` of `http_client.go`.  The argument is a pointer to a
request and may be nil; the result is `none` when the expression
`req.URL.Query()` dereferences a nil pointer (a run-time panic in Go). -/
def GetQuery (req : Option Request) (key : GoString) : Option GoString :=
  match req with
  | none => none
  | some r =>
    match r.URL with
    | none => none
    | some u =>
      match u.Query.get key with
      | some values => if values.length > 0 then some (values.headD []) else some []
      | none => some []

/-! ## Auxiliary definitions used in the statements and proofs -/

/-- The invariant of a `url.Values` built by `parseQuery` and `Set`: the keys are
pairwise different and no key carries an empty list. -/
def Values.WF (m : Values) : Prop := m.keys.Nodup ∧ ∀ k, m.get k ≠ some []

/-- The parameters that a query string carries: what the loop of Go `parseQuery`
reads from it into an empty map, whatever their number. -/
def queryParams (query : GoString) : Values × Option GoError :=
  parseQueryLoop query.length [] none query

/-- The text `Values.Encode` writes for one key and one of its values. -/
def encodePair (p : GoString × GoString) : GoString :=
  QueryEscape p.1 ++ [61] ++ QueryEscape p.2

/-- The pairs `Values.Encode` writes, in the order it writes them. -/
def Values.pairs (v : Values) : List (GoString × GoString) :=
  (sortStrings v.keys).flatMap (fun k => ((v.get k).getD []).map (fun x => (k, x)))

/-- Pairs joined by `&`. -/
def joinPairs : List (GoString × GoString) → GoString
  | [] => []
  | [p] => encodePair p
  | p :: q :: ps => encodePair p ++ 38 :: joinPairs (q :: ps)

/-- The buffer step of `Values.Encode`. -/
def writePair (buf : GoString) (p : GoString × GoString) : GoString :=
  (if buf.length > 0 then buf ++ [38] else buf) ++ QueryEscape p.1 ++ [61] ++ QueryEscape p.2

/-- The values that the pairs `ps` carry for the key `k`, in order. -/
def valuesOf (k : GoString) (ps : List (GoString × GoString)) : List GoString :=
  (ps.filter (fun p => p.1 = k)).map Prod.snd

/-- The query component of a URL string: the text after the first `?` of the part
before the first `#`.  -/
def rawQueryOf (s : GoString) : GoString := (cut 63 (cut 35 s).1).2.1

/-- Neither `?` nor `#`. -/
def NoDelim (s : GoString) : Prop := ∀ b ∈ s, b ≠ 63 ∧ b ≠ 35

/-- A byte that Go `getScheme` accepts inside a scheme. -/
def schemeChar (c : Byte) : Bool :=
  (97 ≤ c.val && c.val ≤ 122) || (65 ≤ c.val && c.val ≤ 90) ||
    (48 ≤ c.val && c.val ≤ 57) || c = 43 || c = 45 || c = 46

/-! ## `http_client.go`: `RandomString` -/

/-- Go `utf8.EncodeRune`: the UTF-8 bytes of a rune; a surrogate or a value
above U+10FFFF is written as U+FFFD. -/
def encodeRune (r : Nat) : GoString :=
  if r < 128 then [Fin.ofNat r]
  else if r < 2048 then [Fin.ofNat (192 + r / 64), Fin.ofNat (128 + r % 64)]
  else if (55296 ≤ r && r ≤ 57343) || 1114111 < r then [239, 191, 189]
  else if r < 65536 then
    [Fin.ofNat (224 + r / 4096), Fin.ofNat (128 + r / 64 % 64), Fin.ofNat (128 + r % 64)]
  else
    [Fin.ofNat (240 + r / 262144), Fin.ofNat (128 + r / 4096 % 64), Fin.ofNat (128 + r / 64 % 64),
      Fin.ofNat (128 + r % 64)]

/-- Go conversion `string(b)` of a `[]rune`. -/
def stringOfRunes (b : List Nat) : GoString := b.flatMap encodeRune

/-- The runes of the literal in `RandomString`, `[]rune("1234567890abc...XYZ")`:
the ten digits starting with `1`, the lower-case letters, the upper-case letters. -/
def letters : List Nat :=
  "1234567890abcdefghijklmnopqrstuvwxyzABCDEFGHIJKLMNOPQRSTUVWXYZ".toList.map Char.toNat

/-- The pseudo-random generator `math/rand` as `RandomString` uses it: `newRand seed`
is `rand.New(rand.NewSource(seed))`, and `Intn r n` is the value `r.Intn(n)` returns
together with the state of the generator after the call. -/
structure RandEnv (σ : Type) where
  newRand : Int → σ
  Intn : σ → Nat → Nat × σ

/-- The loop `for i := range b { b[i] = letters[r.Intn(len(letters))] }` over the
indices still to visit; `none` when the index expression `letters[...]` is out of
range (a run-time panic in Go). -/
def randomLoop {σ : Type} (env : RandEnv σ) : List Nat → σ → List Nat → Option (List Nat)
  | [], _, b => some b
  | i :: rest, r, b =>
    match letters[(env.Intn r letters.length).1]? with
    | none => none
    | some c => randomLoop env rest (env.Intn r letters.length).2 (b.set i c)

/-- Function `RandomString` of `http_client.go`; `now` is `time.Now().UnixNano()`.  `none`
stands for a run-time panic (`make` with a negative length, or an index out of
range). -/
def RandomString {σ : Type} (env : RandEnv σ) (now : Int) (ln : Int) : Option GoString :=
  if ln < 0 then none
  else
    match randomLoop env (List.range ln.toNat) (env.newRand now) (List.replicate ln.toNat 0) with
    | none => none
    | some b => some (stringOfRunes b)

/-! ## The outside world of the request helpers -/

/-- A `fasthttp.Request` as `PostJSONWithBody` fills it. -/
structure FastRequest where
  contentType : GoString := []
  method : GoString := []
  uri : GoString := []
  body : GoString := []
  deriving DecidableEq, Repr

/-- What `fasthttp.Do` leaves in the `fasthttp.Response`. -/
structure FastResponse where
  statusCode : Int
  body : GoString
  deriving DecidableEq, Repr

/-- A `net/http` request as `http.NewRequest` and `Header.Set` build it. -/
structure HttpRequest where
  method : GoString
  url : URL
  contentType : GoString
  body : GoString
  deriving DecidableEq, Repr

/-- A `net/http` response: status code and the bytes of its body. -/
structure HttpResponse where
  statusCode : Int
  body : GoString
  deriving DecidableEq, Repr

/-- An `io.Reader` read to its end by `io.Copy`: the bytes it delivers, and the
error that ends the reading (`none` for `io.EOF`). -/
structure Reader where
  data : GoString
  err : Option GoError
  deriving DecidableEq, Repr

/-- What the helpers do to the outside world, in the order in which they do it. -/
inductive Event where
  | acquireRequest
  | releaseRequest
  | acquireResponse
  | releaseResponse
  | fasthttpDo (req : FastRequest)
  | httpSend (req : HttpRequest)
  | closeBody
  | openFile (name : GoString)
  | closeFile (name : GoString)
  deriving DecidableEq, Repr

/-- The state of the outside world: the number of pooled `fasthttp` requests and
responses that are acquired and not released, the number of open files, and
the trace of all events so far. -/
structure World where
  requestsOut : Nat := 0
  responsesOut : Nat := 0
  filesOpen : Nat := 0
  trace : List Event := []
  deriving DecidableEq, Repr

/-- The libraries behind the request helpers.  `α` is the type of the non-nil
values of a Go `interface{}` payload (`none` is the nil interface), `τ` the type a
response pointer points to.  Every helper calls each of these at most once, so a
function of the argument describes all that the library can do in one call.

* `marshal` is `jsoniter.Marshal`;
* `unmarshal body v` is `jsoniter.Unmarshal(body, response)` with `*response = v`
  before the call: the value of `*response` after it, and the error;
* `decode body v` is `jsoniter.NewDecoder(resp.Body).Decode(response)` likewise;
* `fasthttpDo` is `fasthttp.Do(req, resp)`: the error and what `resp` then holds;
* `httpDo` is `(*http.Client).Do`;
* `osOpen` is `os.Open`: the opened file as a reader, or the error;
* `createPartErr` is the error of writing a part header to the buffer of the
  multipart writer (always nil for a `bytes.Buffer`);
* `boundaryBytes` are the 30 random bytes of `multipart.randomBoundary`. -/
structure Env (α τ : Type) where
  marshal : Option α → GoString × Option GoError
  unmarshal : Option GoString → τ → τ × Option GoError
  decode : GoString → τ → τ × Option GoError
  fasthttpDo : FastRequest → Option GoError × FastResponse
  httpDo : HttpRequest → Result HttpResponse
  osOpen : GoString → Result Reader
  createPartErr : Option GoError
  boundaryBytes : GoString

/-- Go `fasthttp.AcquireRequest`: an empty request from the pool. -/
def AcquireRequest (w : World) : FastRequest × World :=
  ({}, { w with requestsOut := w.requestsOut + 1, trace := w.trace ++ [.acquireRequest] })

/-- Go `fasthttp.ReleaseRequest`. -/
def ReleaseRequest (w : World) : World :=
  { w with requestsOut := w.requestsOut - 1, trace := w.trace ++ [.releaseRequest] }

/-- Go `fasthttp.AcquireResponse`. -/
def AcquireResponse (w : World) : World :=
  { w with responsesOut := w.responsesOut + 1, trace := w.trace ++ [.acquireResponse] }

/-- Go `fasthttp.ReleaseResponse`. -/
def ReleaseResponse (w : World) : World :=
  { w with responsesOut := w.responsesOut - 1, trace := w.trace ++ [.releaseResponse] }

/-! ## `http_client.go`: JSON helpers -/

/-- The four statements of `PostJSONWithBody` that fill the acquired request:
`req.Header.SetContentType("application/json")`, `req.Header.SetMethod("POST")`,
`req.SetRequestURI(url)` and `req.SetBody(raw)`. -/
def FastRequest.fill (req : FastRequest) (url raw : GoString) : FastRequest :=
  { req with contentType := str "application/json", method := str "POST", uri := url, body := raw }

/-- Function `PostJSONWithBody` of `http_client.go`: the triple it returns (the body is
`none` for a nil slice) and the world after the call.  The two `defer`red releases
run after the return values are computed, the response first. -/
def PostJSONWithBody {α τ : Type} (env : Env α τ) (url : GoString) (params : Option α)
    (w : World) : (Int × Option GoString × Option GoError) × World :=
  match env.marshal params with
  | (_, some err) => ((0, none, some (.withStack err)), w)
  | (raw, none) =>
    let req : FastRequest := (AcquireRequest w).1.fill url raw
    let w2 := AcquireResponse (AcquireRequest w).2
    let w3 : World := { w2 with trace := w2.trace ++ [.fasthttpDo req] }
    match env.fasthttpDo req with
    | (some err, _) => ((0, none, some (.withStack err)), ReleaseRequest (ReleaseResponse w3))
    | (none, resp) =>
      ((resp.statusCode, some resp.body, none), ReleaseRequest (ReleaseResponse w3))

/-- Function `PostJSON` of `http_client.go`: the error, the value of `*response` after the
call (`response` holds `v` before it), and the world after the call. -/
def PostJSON {α τ : Type} (env : Env α τ) (url : GoString) (params : Option α) (v : τ)
    (w : World) : Option GoError × τ × World :=
  match PostJSONWithBody env url params w with
  | ((_, _, some err), w2) => (some (.withStack err), v, w2)
  | ((_, body, none), w2) => ((env.unmarshal body v).2, (env.unmarshal body v).1, w2)

/-- Go `http.hasPort`. -/
def hasPort (s : GoString) : Bool := lastIndex 58 s > lastIndex 93 s

/-- Go `http.removeEmptyPort`: a host that ends in an empty port loses the colon. -/
def removeEmptyPort (host : GoString) : GoString :=
  if hasPort host then (if host.getLast? = some 58 then host.dropLast else host) else host

/-- Go `http.NewRequest("POST", url, body)` followed by
`req.Header.Set("Content-Type", contentType)`: the URL is parsed with `url.Parse`
and an empty port is removed from its host. -/
def newPostRequest (url contentType body : GoString) : Result HttpRequest :=
  match Parse url with
  | .err e => .err e
  | .ok u =>
    .ok { method := str "POST", url := { u with Host := removeEmptyPort u.Host },
          contentType := contentType, body := body }

/-- Go `(*http.Client).Do(req)`: the request goes out and the transport answers.
One `httpSend` event stands for one call of `Do`. -/
def clientDo {α τ : Type} (env : Env α τ) (req : HttpRequest) (w : World) :
    Result HttpResponse × World :=
  (env.httpDo req, { w with trace := w.trace ++ [.httpSend req] })

/-- Go `http.Post(url, contentType, body)`. -/
def httpPost {α τ : Type} (env : Env α τ) (url contentType body : GoString) (w : World) :
    Result HttpResponse × World :=
  match newPostRequest url contentType body with
  | .err e => (.err e, w)
  | .ok req => clientDo env req w

/-- Function `PostJSONWithBody2` of `http_client.go`.  The reader is the empty
`new(bytes.Reader)` unless `params` is not nil. -/
def PostJSONWithBody2 {α τ : Type} (env : Env α τ) (url : GoString) (params : Option α)
    (w : World) : Result HttpResponse × World :=
  match params with
  | none => httpPost env url (str "application/json; charset=utf-8") [] w
  | some p =>
    match env.marshal (some p) with
    | (_, some err) => (.err (.withStack err), w)
    | (raw, none) => httpPost env url (str "application/json; charset=utf-8") raw w

/-! ## `mime/multipart`: the writer -/

/-- Lower-case hex digit, as `fmt.Sprintf("%x", ...)` writes it. -/
def lowerhex (i : Nat) : Byte :=
  if i < 10 then Fin.ofNat (48 + i) else Fin.ofNat (87 + i)

/-- Go `multipart.randomBoundary`: the random bytes printed with `%x`. -/
def randomBoundary (random : GoString) : GoString :=
  random.flatMap (fun b => [lowerhex (b.val / 16), lowerhex (b.val % 16)])

/-- Go `multipart.Writer` over a `bytes.Buffer`: the bytes written so far, the
boundary, and whether a part is open (`lastpart != nil`). -/
structure Writer where
  buf : GoString
  boundary : GoString
  lastpart : Bool
  deriving DecidableEq, Repr

/-- Go `multipart.NewWriter(buf)` on a new buffer. -/
def NewWriter {α τ : Type} (env : Env α τ) : Writer :=
  { buf := [], boundary := randomBoundary env.boundaryBytes, lastpart := false }

/-- Go `multipart.escapeQuotes`, the replacer of `mime/multipart`: a backslash
before every backslash and every double quote, and `%0A`, `%0D` for a line feed
and a carriage return. -/
def escapeQuotes (s : GoString) : GoString :=
  s.flatMap (fun c =>
    if c = 92 || c = 34 then [92, c]
    else if c = 10 then [37, 48, 65]
    else if c = 13 then [37, 48, 68]
    else [c])

/-- The header block that `CreateFormFile` hands to `CreatePart`, as `CreatePart`
writes it: the keys in sorted order, one line each, then an empty line. -/
def formFileHeader (fieldname filename : GoString) : GoString :=
  str "Content-Disposition: form-data; name=\"" ++ escapeQuotes fieldname ++
    str "\"; filename=\"" ++ escapeQuotes filename ++ str "\"\r\n" ++
    str "Content-Type: application/octet-stream\r\n" ++ str "\r\n"

/-- Go `(*Writer).CreateFormFile(fieldname, filename)`: the boundary line (after a
line break when a part is already open), then the header block.  The error is
that of copying these bytes into the buffer. -/
def Writer.CreateFormFile {α τ : Type} (env : Env α τ) (w : Writer)
    (fieldname filename : GoString) : Writer × Option GoError :=
  match env.createPartErr with
  | some e => (w, some e)
  | none =>
    ({ w with
        buf := w.buf ++ (if w.lastpart then str "\r\n--" else str "--") ++ w.boundary ++
          str "\r\n" ++ formFileHeader fieldname filename,
        lastpart := true }, none)

/-- Go `io.Copy(fw, reader)` into the open part: the bytes the reader delivers
are appended to the buffer, and the error is the one that ended the reading. -/
def Writer.copyFrom (w : Writer) (reader : Reader) : Writer × Option GoError :=
  ({ w with buf := w.buf ++ reader.data }, reader.err)

/-- Go `(*Writer).Close`: the open part is closed and the terminating boundary
line is written. -/
def Writer.Close (w : Writer) : Writer :=
  { w with buf := w.buf ++ str "\r\n--" ++ w.boundary ++ str "--\r\n", lastpart := false }

/-- Go `mime.isTSpecial`: one of the bytes of `()<>@,;:\"/[]?=`. -/
def isMimeTSpecial (c : Byte) : Bool := (str "()<>@,;:\\\"/[]?=").contains c

/-- The quoted-string loop of Go `mime.consumeValue`, after the opening quote:
the value read up to the closing quote and the text after it.  A backslash
before one of the special bytes stands for that byte, any other backslash for
itself; a line break or a missing closing quote gives no value (`none`). -/
def consumeQuotedLoop : GoString → Option (GoString × GoString)
  | [] => none
  | [c] => if c = 34 then some ([], []) else none
  | c :: d :: rest =>
    if c = 34 then some ([], d :: rest)
    else if c = 92 && isMimeTSpecial d then
      (consumeQuotedLoop rest).map (fun r => (d :: r.1, r.2))
    else if c = 13 || c = 10 then none
    else (consumeQuotedLoop (d :: rest)).map (fun r => (c :: r.1, r.2))

/-- Go `mime.consumeValue` on a quoted string, the way `mime.ParseMediaType` reads
the `name` and `filename` parameters of a `Content-Disposition` header when
`mime/multipart` reads a part. -/
def consumeQuoted : GoString → Option (GoString × GoString)
  | [] => none
  | c :: rest => if c = 34 then consumeQuotedLoop rest else none

/-- One of the bytes of `()<>@,;:\"/[]?= `, for which `FormDataContentType`
quotes the boundary. -/
def isTSpecial (c : Byte) : Bool := (str "()<>@,;:\\\"/[]?= ").contains c

/-- Go `(*Writer).FormDataContentType`: the boundary is quoted when it contains
one of the bytes of `()<>@,;:\"/[]?= `. -/
def Writer.FormDataContentType (w : Writer) : GoString :=
  if w.boundary.any isTSpecial then
    str "multipart/form-data; boundary=\"" ++ w.boundary ++ str "\""
  else str "multipart/form-data; boundary=" ++ w.boundary

/-! ## `http_client.go`: form helpers -/

/-- Function `PostForm` of `http_client.go`: the error, the value of `*response` after the
call (`response` holds `v` before it), and the world after the call. -/
def PostForm {α τ : Type} (env : Env α τ) (url field filename : GoString) (reader : Reader)
    (v : τ) (w : World) : Option GoError × τ × World :=
  match (NewWriter env).CreateFormFile env field filename with
  | (_, some err) => (some (.withStack err), v, w)
  | (w1, none) =>
    match w1.copyFrom reader with
    | (_, some err) => (some (.withStack err), v, w)
    | (w2, none) =>
      match newPostRequest url w2.Close.FormDataContentType w2.Close.buf with
      | .err err => (some (.withStack err), v, w)
      | .ok req =>
        match clientDo env req w with
        | (.err err, w3) => (some (.withStack err), v, w3)
        | (.ok resp, w3) =>
          ((env.decode resp.body v).2, (env.decode resp.body v).1,
            { w3 with trace := w3.trace ++ [.closeBody] })

/-- Function `PostFormByFile` of `http_client.go`.  The `defer`red `file.Close()` runs
after `PostForm` has returned. -/
def PostFormByFile {α τ : Type} (env : Env α τ) (url field filename : GoString) (v : τ)
    (w : World) : Option GoError × τ × World :=
  match env.osOpen filename with
  | .err err => (some (.withStack err), v, w)
  | .ok file =>
    match PostForm env url field filename file v
      { w with filesOpen := w.filesOpen + 1, trace := w.trace ++ [.openFile filename] } with
    | (err, v2, w2) =>
      (err, v2, { w2 with filesOpen := w2.filesOpen - 1, trace := w2.trace ++ [.closeFile filename] })

/-! ## Concrete environments for the witnesses -/

/-- A generator for the witness of C5: a linear congruential step, reduced
modulo the bound. -/
def lcgEnv : RandEnv Nat where
  newRand := fun seed => seed.toNat
  Intn := fun r k => ((r * 1103515245 + 12345) % k, r * 1103515245 + 12345)

/-- An environment for the witnesses of the request helpers: payloads are `Unit`,
the response target is a byte string.  The server answers every request with
the given status code; serialization and transport fail on demand; the only
file that cannot be opened is `/nonexistent/path`. -/
def demoEnv (status : Int) (failMarshal failDo : Bool) : Env Unit GoString where
  marshal := fun _ => if failMarshal then ([], some (.external 1)) else (str "{}", none)
  unmarshal := fun body v =>
    match body with
    | some b => if b = [] then (v, some (.external 2)) else (b, none)
    | none => (v, some (.external 2))
  decode := fun body v => if body = [] then (v, some (.external 3)) else (body, none)
  fasthttpDo := fun req =>
    if failDo then (some (.external 4), ⟨0, []⟩) else (none, ⟨status, str "echo:" ++ req.body⟩)
  httpDo := fun req =>
    if failDo then .err (.external 5) else .ok ⟨status, str "len:" ++ [Fin.ofNat req.body.length]⟩
  osOpen := fun name =>
    if name = str "/nonexistent/path" then .err (.external 6) else .ok ⟨str "DATA", none⟩
  createPartErr := none
  boundaryBytes := [171, 1]

/-! ## Auxiliary definitions for the request helpers -/

/-- The `fasthttp` request that `PostJSONWithBody` sends for `url` and the
serialized payload `raw`. -/
def jsonPostRequest (url raw : GoString) : FastRequest :=
  { contentType := str "application/json", method := str "POST", uri := url, body := raw }

/-- The body of a multipart message with one file part and the terminating
boundary line. -/
def multipartBody (boundary field filename data : GoString) : GoString :=
  str "--" ++ boundary ++ str "\r\n" ++ formFileHeader field filename ++ data ++
    str "\r\n--" ++ boundary ++ str "--\r\n"

/-! ## Theorems -/

set_option maxRecDepth 100000 in
theorem hex_roundtrip : ∀ c : Byte,
    ishex (upperhex (c.val / 16)) = true ∧ ishex (upperhex (c.val % 16)) = true ∧
    (Fin.ofNat (unhex (upperhex (c.val / 16)) * 16 + unhex (upperhex (c.val % 16))) : Byte) = c := by
  decide

set_option maxRecDepth 100000 in
theorem queryEscapeByte_cases : ∀ c : Byte,
    (c = 32 ∧ escapeByte .encodeQueryComponent c = [43]) ∨
    (c ≠ 32 ∧ escapeByte .encodeQueryComponent c = [37, upperhex (c.val / 16), upperhex (c.val % 16)] ∧
      upperhex (c.val / 16) ≠ 38 ∧ upperhex (c.val / 16) ≠ 61 ∧ upperhex (c.val / 16) ≠ 59 ∧
      upperhex (c.val % 16) ≠ 38 ∧ upperhex (c.val % 16) ≠ 61 ∧ upperhex (c.val % 16) ≠ 59) ∨
    (escapeByte .encodeQueryComponent c = [c] ∧ c ≠ 37 ∧ c ≠ 43 ∧ c ≠ 38 ∧ c ≠ 61 ∧ c ≠ 59) := by
  decide

theorem QueryEscape_cons (c : Byte) (s : GoString) :
    QueryEscape (c :: s) = escapeByte .encodeQueryComponent c ++ QueryEscape s := by
  simp [QueryEscape, escape]

theorem QueryEscape_nil : QueryEscape [] = [] := rfl

/-- No byte of an escaped query component is `&`, `=` or `;`. -/
theorem QueryEscape_safe (s : GoString) :
    ∀ b ∈ QueryEscape s, b ≠ 38 ∧ b ≠ 61 ∧ b ≠ 59 := by
  induction s with
  | nil => intro b hb; simp [QueryEscape_nil] at hb
  | cons c s ih =>
    intro b hb
    rw [QueryEscape_cons, List.mem_append] at hb
    rcases hb with hb | hb
    · rcases queryEscapeByte_cases c with ⟨_, h⟩ | ⟨_, h, h1, h2, h3, h4, h5, h6⟩ | ⟨h, h1, h2, h3, h4, h5⟩
      · rw [h] at hb; simp at hb; subst hb; decide
      · rw [h] at hb; simp at hb
        rcases hb with rfl | rfl | rfl
        · decide
        · exact ⟨h1, h2, h3⟩
        · exact ⟨h4, h5, h6⟩
      · rw [h] at hb; simp at hb; subst hb; exact ⟨h3, h4, h5⟩
    · exact ih b hb

theorem unescapeCheck_cons_plain (mode : Encoding) (c : Byte) (rest : GoString) (h : c ≠ 37) :
    unescapeCheck mode (c :: rest) =
      if c = 43 then unescapeCheck mode rest
      else if (mode = .encodeHost || mode = .encodeZone) && c.val < 128 &&
          shouldEscape c .encodeHost then some (.invalidHostError [c])
      else unescapeCheck mode rest := by
  rw [unescapeCheck.eq_def]; simp [h]

theorem unescapeDecode_cons_plain (mode : Encoding) (c : Byte) (rest : GoString) (h : c ≠ 37) :
    unescapeDecode mode (c :: rest) =
      if c = 43 then (if mode = .encodeQueryComponent then 32 else 43) :: unescapeDecode mode rest
      else c :: unescapeDecode mode rest := by
  rw [unescapeDecode.eq_def]; simp [h]

theorem unescapeCheck_QueryEscape (s : GoString) :
    unescapeCheck .encodeQueryComponent (QueryEscape s) = none := by
  induction s with
  | nil => rfl
  | cons c s ih =>
    rw [QueryEscape_cons]
    rcases queryEscapeByte_cases c with ⟨_, h⟩ | ⟨_, h, _⟩ | ⟨h, h1, h2, _⟩
    · rw [h]; show unescapeCheck .encodeQueryComponent (43 :: QueryEscape s) = none
      rw [unescapeCheck_cons_plain _ _ _ (by decide)]; simp [ih]
    · rw [h]
      have hx := hex_roundtrip c
      simp [unescapeCheck, ih, hx.1, hx.2.1]
    · rw [h]; show unescapeCheck .encodeQueryComponent (c :: QueryEscape s) = none
      rw [unescapeCheck_cons_plain _ _ _ h1]; simp [ih, h2]

theorem unescapeDecode_QueryEscape (s : GoString) :
    unescapeDecode .encodeQueryComponent (QueryEscape s) = s := by
  induction s with
  | nil => rfl
  | cons c s ih =>
    rw [QueryEscape_cons]
    rcases queryEscapeByte_cases c with ⟨hc, h⟩ | ⟨_, h, _⟩ | ⟨h, h1, h2, _⟩
    · rw [h]; show unescapeDecode .encodeQueryComponent (43 :: QueryEscape s) = c :: s
      rw [unescapeDecode_cons_plain _ _ _ (by decide)]; simp [ih, hc]
    · rw [h]
      have hx := hex_roundtrip c
      simp [unescapeDecode, ih, hx.2.2]
    · rw [h]; show unescapeDecode .encodeQueryComponent (c :: QueryEscape s) = c :: s
      rw [unescapeDecode_cons_plain _ _ _ h1]; simp [ih, h2]

/-- Unescaping undoes escaping: `QueryUnescape (QueryEscape s)` is `s`. -/
theorem QueryUnescape_QueryEscape (s : GoString) : QueryUnescape (QueryEscape s) = (s, none) := by
  simp [QueryUnescape, unescape, unescapeCheck_QueryEscape, unescapeDecode_QueryEscape]

theorem cut_append_sep (sep : Byte) (a b : GoString) (h : ∀ x ∈ a, x ≠ sep) :
    cut sep (a ++ sep :: b) = (a, b, true) := by
  induction a with
  | nil => simp [cut]
  | cons x a ih =>
    have hx : x ≠ sep := h x (by simp)
    have := ih (fun y hy => h y (by simp [hy]))
    simp [cut, hx, this]

theorem cut_no_sep (sep : Byte) (a : GoString) (h : ∀ x ∈ a, x ≠ sep) :
    cut sep a = (a, [], false) := by
  induction a with
  | nil => simp [cut]
  | cons x a ih =>
    have hx : x ≠ sep := h x (by simp)
    have := ih (fun y hy => h y (by simp [hy]))
    simp [cut, hx, this]

/-! ### Facts about `Values` -/

theorem Values.get_put (m : Values) (k k2 : GoString) (vs : List GoString) :
    (m.put k vs).get k2 = if k = k2 then some vs else m.get k2 := by
  induction m with
  | nil => simp [Values.put, Values.get]
  | cons p m ih =>
    obtain ⟨k1, vs1⟩ := p
    by_cases h1 : k1 = k
    · subst h1; by_cases h2 : k1 = k2 <;> simp [Values.put, Values.get, h2]
    · by_cases h2 : k1 = k2
      · subst h2
        have : ¬ k = k1 := fun h => h1 h.symm
        simp [Values.put, Values.get, h1, this]
      · simp [Values.put, Values.get, h1, h2, ih]

theorem Values.get_eq_none (m : Values) (k : GoString) : m.get k = none ↔ k ∉ m.keys := by
  induction m with
  | nil => simp [Values.get, Values.keys]
  | cons p m ih =>
    obtain ⟨k1, vs1⟩ := p
    by_cases h : k1 = k
    · simp [Values.get, Values.keys, h]
    · have h2 : ¬ k = k1 := fun e => h e.symm
      simpa [Values.get, Values.keys, h, h2] using ih

theorem Values.keys_put (m : Values) (k : GoString) (vs : List GoString) :
    (m.put k vs).keys = if k ∈ m.keys then m.keys else m.keys ++ [k] := by
  induction m with
  | nil => simp [Values.put, Values.keys]
  | cons p m ih =>
    obtain ⟨k1, vs1⟩ := p
    by_cases h : k1 = k
    · simp [Values.put, Values.keys, h]
    · have h2 : ¬ k = k1 := fun e => h e.symm
      simp only [Values.keys] at ih
      by_cases h3 : k ∈ List.map Prod.fst m
      · simp [Values.put, Values.keys, h, h2, h3, ih]
      · simp [Values.put, Values.keys, h, h2, h3, ih]

theorem Values.WF_nil : Values.WF [] := by
  simp [Values.WF, Values.keys, Values.get]

theorem Values.WF_put (m : Values) (k : GoString) (vs : List GoString) (h : m.WF)
    (hvs : vs ≠ []) : (m.put k vs).WF := by
  refine ⟨?_, ?_⟩
  · rw [Values.keys_put]
    by_cases hk : k ∈ m.keys
    · simpa [hk] using h.1
    · simp only [hk, if_false]
      exact List.nodup_append.mpr ⟨h.1, by simp, by simpa using hk⟩
  · intro k2
    rw [Values.get_put]
    by_cases hk : k = k2
    · simp [hk, hvs]
    · simpa [hk] using h.2 k2

theorem Values.WF_add (m : Values) (k v : GoString) (h : m.WF) : (m.add k v).WF :=
  Values.WF_put m k _ h (by simp)

theorem Values.WF_Set (m : Values) (k v : GoString) (h : m.WF) : (m.Set k v).WF :=
  Values.WF_put m k _ h (by simp)

theorem parseQueryLoop_WF (fuel : Nat) (m : Values) (err : Option GoError) (query : GoString)
    (h : m.WF) : (parseQueryLoop fuel m err query).1.WF := by
  induction fuel generalizing m err query with
  | zero => simpa [parseQueryLoop] using h
  | succ n ih =>
    rw [parseQueryLoop]
    split
    · exact h
    · split
      · exact ih _ _ _ h
      · split
        · exact ih _ _ _ h
        · split
          · exact ih _ _ _ h
          · split
            · exact ih _ _ _ h
            · exact ih _ _ _ (Values.WF_add _ _ _ h)

theorem ParseQuery_of_within (q : GoString) (h : q.count 38 < 10000) :
    ParseQuery q = queryParams q := by
  have : urlParamsWithinMax (q.count 38 + 1) = true := by
    simp only [urlParamsWithinMax, decide_eq_true_eq]; omega
  simp [ParseQuery, parseQuery, queryParams, this]

theorem ParseQuery_of_exceeded (q : GoString) (h : 10000 ≤ q.count 38) :
    ParseQuery q = ([], some .tooManyQueryParams) := by
  have : urlParamsWithinMax (q.count 38 + 1) = false := by
    simp only [urlParamsWithinMax, decide_eq_false_iff_not]; omega
  simp [ParseQuery, parseQuery, this]

theorem queryParams_WF (q : GoString) : (queryParams q).1.WF :=
  parseQueryLoop_WF _ _ _ _ Values.WF_nil

theorem URL.Query_WF (u : URL) : u.Query.WF := by
  by_cases h : u.RawQuery.count 38 < 10000
  · rw [URL.Query, ParseQuery_of_within _ h]; exact queryParams_WF _
  · rw [URL.Query, ParseQuery_of_exceeded _ (by omega)]; exact Values.WF_nil

theorem encodePair_ne_nil (p : GoString × GoString) : encodePair p ≠ [] := by
  simp [encodePair]

theorem encodePair_no_amp (p : GoString × GoString) : ∀ x ∈ encodePair p, x ≠ 38 := by
  intro x hx
  simp only [encodePair, List.mem_append, List.mem_singleton] at hx
  rcases hx with (hx | hx) | hx
  · exact (QueryEscape_safe _ x hx).1
  · subst hx; decide
  · exact (QueryEscape_safe _ x hx).1

theorem encodePair_no_semicolon (p : GoString × GoString) : containsByte 59 (encodePair p) = false := by
  have : ∀ x ∈ encodePair p, x ≠ 59 := by
    intro x hx
    simp only [encodePair, List.mem_append, List.mem_singleton] at hx
    rcases hx with (hx | hx) | hx
    · exact (QueryEscape_safe _ x hx).2.2
    · subst hx; decide
    · exact (QueryEscape_safe _ x hx).2.2
  simp only [containsByte, List.contains_eq_any_beq, List.any_eq_false, beq_iff_eq]
  intro x hx h
  exact this x hx h.symm

theorem cut_eq_encodePair (p : GoString × GoString) :
    cut 61 (encodePair p) = (QueryEscape p.1, QueryEscape p.2, true) := by
  have := cut_append_sep 61 (QueryEscape p.1) (QueryEscape p.2)
    (fun x hx => (QueryEscape_safe _ x hx).2.1)
  simpa [encodePair] using this

theorem parseQueryLoop_nil (fuel : Nat) (m : Values) (err : Option GoError) :
    parseQueryLoop fuel m err [] = (m, err) := by
  cases fuel <;> simp [parseQueryLoop]

theorem parseQueryLoop_step (n : Nat) (m : Values) (err : Option GoError) (query r : GoString)
    (p : GoString × GoString) (b : Bool) (hq : query ≠ []) (hc : cut 38 query = (encodePair p, r, b)) :
    parseQueryLoop (n + 1) m err query = parseQueryLoop n (m.add p.1 p.2) err r := by
  rw [parseQueryLoop]
  simp [hq, hc, encodePair_no_semicolon, encodePair_ne_nil, cut_eq_encodePair,
    QueryUnescape_QueryEscape]

theorem parseQueryLoop_joinPairs (ps : List (GoString × GoString)) :
    ∀ (fuel : Nat) (m : Values) (err : Option GoError), (joinPairs ps).length ≤ fuel →
      parseQueryLoop fuel m err (joinPairs ps) = (ps.foldl (fun m p => m.add p.1 p.2) m, err) := by
  induction ps with
  | nil => intro fuel m err _; simp [joinPairs, parseQueryLoop_nil]
  | cons p ps ih =>
    intro fuel m err hf
    cases ps with
    | nil =>
      have hne : encodePair p ≠ [] := encodePair_ne_nil p
      cases fuel with
      | zero =>
        simp only [joinPairs] at hf
        exact absurd (List.length_eq_zero.mp (Nat.le_zero.mp hf)) hne
      | succ n =>
        simp only [joinPairs]
        rw [parseQueryLoop_step n m err _ [] p false hne (cut_no_sep 38 _ (encodePair_no_amp p))]
        simp [parseQueryLoop_nil]
    | cons q qs =>
      cases fuel with
      | zero => simp [joinPairs] at hf
      | succ n =>
        simp only [joinPairs] at hf ⊢
        rw [parseQueryLoop_step n m err _ (joinPairs (q :: qs)) p true (by simp)
          (cut_append_sep 38 _ _ (encodePair_no_amp p))]
        rw [ih n _ err (by simp at hf; omega)]
        simp

theorem foldl_writePair_nonempty (ps : List (GoString × GoString)) :
    ∀ buf : GoString, buf ≠ [] →
      ps.foldl writePair buf = buf ++ ps.flatMap (fun p => 38 :: encodePair p) := by
  induction ps with
  | nil => intro buf _; simp
  | cons p ps ih =>
    intro buf hb
    have hlen : buf.length > 0 := List.length_pos.mpr hb
    have h1 : writePair buf p = buf ++ 38 :: encodePair p := by
      simp [writePair, hlen, encodePair]
    rw [List.foldl_cons, h1, ih _ (by simp)]
    simp

theorem joinPairs_cons (p : GoString × GoString) (ps : List (GoString × GoString)) :
    joinPairs (p :: ps) = encodePair p ++ ps.flatMap (fun p => 38 :: encodePair p) := by
  induction ps generalizing p with
  | nil => simp [joinPairs]
  | cons q qs ih => simp [joinPairs, ih q]

theorem foldl_writePair_nil (ps : List (GoString × GoString)) :
    ps.foldl writePair [] = joinPairs ps := by
  cases ps with
  | nil => simp [joinPairs]
  | cons p ps =>
    have h1 : writePair [] p = encodePair p := by simp [writePair, encodePair]
    rw [List.foldl_cons, h1, foldl_writePair_nonempty ps _ (encodePair_ne_nil p), joinPairs_cons]

theorem foldl_nested (g : GoString → List GoString) (ks : List GoString) :
    ∀ buf : GoString,
      ks.foldl (fun buf k => (g k).foldl (fun buf value =>
          (if buf.length > 0 then buf ++ [38] else buf) ++ QueryEscape k ++ [61] ++
            QueryEscape value) buf) buf =
        (ks.flatMap (fun k => (g k).map (fun x => (k, x)))).foldl writePair buf := by
  induction ks with
  | nil => intro buf; simp
  | cons k ks ih =>
    intro buf
    rw [List.foldl_cons, ih, List.flatMap_cons, List.foldl_append, List.foldl_map]
    rfl

theorem Values.Encode_eq (v : Values) : v.Encode = joinPairs v.pairs := by
  unfold Values.Encode
  split
  · next h =>
    have : v = [] := List.length_eq_zero.mp h
    subst this
    simp [Values.pairs, Values.keys, sortStrings, joinPairs]
  · rw [foldl_nested (fun k => (v.get k).getD []), foldl_writePair_nil]
    rfl

theorem Values.get_add (m : Values) (k v k2 : GoString) :
    (m.add k v).get k2 = if k = k2 then some ((m.get k).getD [] ++ [v]) else m.get k2 := by
  simp [Values.add, Values.get_put]

theorem get_foldl_add (ps : List (GoString × GoString)) (k : GoString) :
    ∀ m : Values, (ps.foldl (fun m p => m.add p.1 p.2) m).get k =
      if valuesOf k ps = [] then m.get k else some ((m.get k).getD [] ++ valuesOf k ps) := by
  induction ps with
  | nil => intro m; simp [valuesOf]
  | cons p ps ih =>
    intro m
    rw [List.foldl_cons, ih, Values.get_add]
    by_cases hp : p.1 = k
    · subst hp
      by_cases hv : valuesOf p.1 ps = []
      · simp [valuesOf, hv] at hv ⊢
      · have hv2 : valuesOf p.1 (p :: ps) = p.2 :: valuesOf p.1 ps := by simp [valuesOf]
        simp [hv, hv2]
    · have hv2 : valuesOf k (p :: ps) = valuesOf k ps := by simp [valuesOf, hp]
      simp [hp, hv2]

theorem valuesOf_flatMap (g : GoString → List GoString) (k : GoString) (ks : List GoString)
    (hnd : ks.Nodup) :
    valuesOf k (ks.flatMap (fun k2 => (g k2).map (fun x => (k2, x)))) =
      if k ∈ ks then g k else [] := by
  induction ks with
  | nil => simp [valuesOf]
  | cons k2 ks ih =>
    have hnd2 := List.nodup_cons.mp hnd
    have ih2 := ih hnd2.2
    simp only [valuesOf] at ih2 ⊢
    rw [List.flatMap_cons, List.filter_append, List.map_append, ih2]
    by_cases hk : k2 = k
    · subst hk
      have : List.filter (fun p : GoString × GoString => decide (p.1 = k2))
          (List.map (fun x => (k2, x)) (g k2)) = List.map (fun x => (k2, x)) (g k2) := by
        apply List.filter_eq_self.mpr
        intro a ha
        simp only [List.mem_map] at ha
        obtain ⟨x, _, rfl⟩ := ha
        simp
      simp [this, hnd2.1, Function.comp]
    · have : List.filter (fun p : GoString × GoString => decide (p.1 = k))
          (List.map (fun x => (k2, x)) (g k2)) = [] := by
        apply List.filter_eq_nil_iff.mpr
        intro a ha
        simp only [List.mem_map] at ha
        obtain ⟨x, _, rfl⟩ := ha
        simpa using hk
      have hk2 : ¬ k = k2 := fun e => hk e.symm
      simp [this, hk2]

theorem sortStrings_perm (ks : List GoString) : (sortStrings ks).Perm ks :=
  List.perm_insertionSort _ ks

theorem valuesOf_pairs (v : Values) (h : v.WF) (k : GoString) :
    valuesOf k v.pairs = (v.get k).getD [] := by
  have hnd : (sortStrings v.keys).Nodup := (sortStrings_perm v.keys).nodup_iff.mpr h.1
  rw [Values.pairs, valuesOf_flatMap (fun k => (v.get k).getD []) k _ hnd]
  by_cases hk : k ∈ sortStrings v.keys
  · simp [hk]
  · have : k ∉ v.keys := fun hm => hk ((sortStrings_perm v.keys).mem_iff.mpr hm)
    simp [hk, (Values.get_eq_none v k).mpr this]

/-- Reading the parameters of what `Encode` wrote gives the map back: no error,
and every key has the value list it had. -/
theorem queryParams_Encode (v : Values) (h : v.WF) :
    (queryParams v.Encode).2 = none ∧ ∀ k, (queryParams v.Encode).1.get k = v.get k := by
  have hp := parseQueryLoop_joinPairs v.pairs (joinPairs v.pairs).length [] none (le_refl _)
  rw [queryParams, Values.Encode_eq, hp]
  refine ⟨rfl, fun k => ?_⟩
  simp only
  rw [get_foldl_add, valuesOf_pairs v h k]
  cases hg : v.get k with
  | none => simp [Values.get]
  | some vs =>
    have : vs ≠ [] := fun e => h.2 k (by rw [hg, e])
    simp [this, Values.get]

set_option maxRecDepth 100000 in
theorem upperhex_noDelim : ∀ c : Byte,
    upperhex (c.val / 16) ≠ 63 ∧ upperhex (c.val / 16) ≠ 35 ∧
    upperhex (c.val % 16) ≠ 63 ∧ upperhex (c.val % 16) ≠ 35 := by
  decide

theorem escapeByte_noDelim (mode : Encoding) (c : Byte)
    (h63 : shouldEscape 63 mode = true) (h35 : shouldEscape 35 mode = true) :
    ∀ b ∈ escapeByte mode c, b ≠ 63 ∧ b ≠ 35 := by
  intro b hb
  unfold escapeByte at hb
  split at hb
  · simp at hb; subst hb; decide
  · split at hb
    · have hx := upperhex_noDelim c
      simp at hb
      rcases hb with rfl | rfl | rfl
      · decide
      · exact ⟨hx.1, hx.2.1⟩
      · exact ⟨hx.2.2.1, hx.2.2.2⟩
    · next hne =>
      simp at hb; subst hb
      constructor
      · intro e; subst e; exact hne h63
      · intro e; subst e; exact hne h35

theorem NoDelim_nil : NoDelim [] := by intro b hb; simp at hb

theorem NoDelim_append {a b : GoString} (ha : NoDelim a) (hb : NoDelim b) : NoDelim (a ++ b) := by
  intro x hx
  rcases List.mem_append.mp hx with h | h
  · exact ha x h
  · exact hb x h

theorem NoDelim_cons {c : Byte} {a : GoString} (hc : c ≠ 63 ∧ c ≠ 35) (ha : NoDelim a) :
    NoDelim (c :: a) := by
  intro x hx
  rcases List.mem_cons.mp hx with h | h
  · subst h; exact hc
  · exact ha x h

theorem escape_noDelim (s : GoString) (mode : Encoding)
    (hm : mode = .encodeQueryComponent ∨ mode = .encodeUserPassword ∨ mode = .encodeHost ∨
      mode = .encodePath) : NoDelim (escape s mode) := by
  intro b hb
  simp only [escape, List.mem_flatMap] at hb
  obtain ⟨c, _, hc⟩ := hb
  rcases hm with rfl | rfl | rfl | rfl <;>
    exact escapeByte_noDelim _ c (by decide) (by decide) b hc

theorem encodePair_noDelim (p : GoString × GoString) : NoDelim (encodePair p) := by
  unfold encodePair
  exact NoDelim_append (NoDelim_append (escape_noDelim _ _ (Or.inl rfl))
    (NoDelim_cons (by decide) NoDelim_nil)) (escape_noDelim _ _ (Or.inl rfl))

theorem joinPairs_noDelim (ps : List (GoString × GoString)) : NoDelim (joinPairs ps) := by
  cases ps with
  | nil => exact NoDelim_nil
  | cons p ps =>
    rw [joinPairs_cons]
    refine NoDelim_append (encodePair_noDelim p) ?_
    intro b hb
    simp only [List.mem_flatMap] at hb
    obtain ⟨q, _, hq⟩ := hb
    exact NoDelim_cons (by decide) (encodePair_noDelim q) b hq

theorem Encode_noDelim (v : Values) : NoDelim v.Encode := by
  rw [Values.Encode_eq]; exact joinPairs_noDelim _

set_option maxRecDepth 100000 in
theorem validEncoded_byte_noDelim : ∀ c : Byte,
    ([33, 36, 38, 39, 40, 41, 42, 43, 44, 59, 61, 58, 64, 91, 93, 37].contains c.val ||
      !shouldEscape c .encodePath) = true → c ≠ 63 ∧ c ≠ 35 := by
  decide

theorem validEncoded_noDelim (s : GoString) (h : validEncoded s .encodePath = true) : NoDelim s := by
  intro b hb
  simp only [validEncoded, List.all_eq_true] at h
  exact validEncoded_byte_noDelim b (h b hb)

theorem EscapedPath_noDelim (u : URL) : NoDelim u.EscapedPath := by
  unfold URL.EscapedPath
  split
  · next h =>
    simp only [Bool.and_eq_true] at h
    exact validEncoded_noDelim _ h.1.2
  · split
    · exact NoDelim_cons (by decide) NoDelim_nil
    · exact escape_noDelim _ _ (Or.inr (Or.inr (Or.inr rfl)))

theorem Userinfo_String_noDelim (ui : Userinfo) : NoDelim ui.String := by
  unfold Userinfo.String
  refine NoDelim_append (escape_noDelim _ _ (Or.inr (Or.inl rfl))) ?_
  split
  · exact NoDelim_cons (by decide) (escape_noDelim _ _ (Or.inr (Or.inl rfl)))
  · exact NoDelim_nil

theorem schemePart_noDelim (u : URL) (hS : NoDelim u.Scheme) : NoDelim u.schemePart := by
  unfold URL.schemePart
  split
  · exact NoDelim_append hS (NoDelim_cons (by decide) NoDelim_nil)
  · exact NoDelim_nil

theorem authorityPart_noDelim (u : URL) : NoDelim u.authorityPart := by
  unfold URL.authorityPart
  split
  · split
    · exact NoDelim_nil
    · refine NoDelim_append (NoDelim_append ?_ ?_) ?_
      · split
        · exact NoDelim_cons (by decide) (NoDelim_cons (by decide) NoDelim_nil)
        · exact NoDelim_nil
      · split
        · exact NoDelim_append (Userinfo_String_noDelim _) (NoDelim_cons (by decide) NoDelim_nil)
        · exact NoDelim_nil
      · split
        · exact escape_noDelim _ _ (Or.inr (Or.inr (Or.inl rfl)))
        · exact NoDelim_nil
  · exact NoDelim_nil

theorem slashPart_noDelim (u : URL) : NoDelim u.slashPart := by
  unfold URL.slashPart
  split
  · exact NoDelim_cons (by decide) NoDelim_nil
  · exact NoDelim_nil

theorem dotPart_noDelim (u : URL) : NoDelim u.dotPart := by
  unfold URL.dotPart
  split
  · exact NoDelim_cons (by decide) (NoDelim_cons (by decide) NoDelim_nil)
  · exact NoDelim_nil

theorem beforeQuery_noDelim (u : URL) (hS : NoDelim u.Scheme) (hO : NoDelim u.Opaque) :
    NoDelim u.beforeQuery := by
  unfold URL.beforeQuery
  split
  · exact NoDelim_append (schemePart_noDelim u hS) hO
  · exact NoDelim_append (NoDelim_append (NoDelim_append (NoDelim_append
      (schemePart_noDelim u hS) (authorityPart_noDelim u)) (slashPart_noDelim u))
      (dotPart_noDelim u)) (EscapedPath_noDelim u)

theorem getSchemeLoop_ok (raw : GoString) :
    ∀ (s pre sch rest : GoString), getSchemeLoop raw pre s = .ok (sch, rest) →
      (sch = [] ∧ rest = raw) ∨
        (∃ a, sch = pre.reverse ++ a ∧ s = a ++ 58 :: rest ∧ ∀ b ∈ a, schemeChar b = true) := by
  intro s
  induction s with
  | nil =>
    intro pre sch rest h
    simp only [getSchemeLoop, Result.ok.injEq, Prod.mk.injEq] at h
    exact Or.inl ⟨h.1.symm, h.2.symm⟩
  | cons c t ih =>
    intro pre sch rest h
    have hrec : getSchemeLoop raw (c :: pre) t = .ok (sch, rest) → schemeChar c = true →
        (sch = [] ∧ rest = raw) ∨
        (∃ a, sch = pre.reverse ++ a ∧ c :: t = a ++ 58 :: rest ∧ ∀ b ∈ a, schemeChar b = true) := by
      intro h2 hc
      rcases ih _ _ _ h2 with h3 | ⟨a, h3, h4, h5⟩
      · exact Or.inl h3
      · refine Or.inr ⟨c :: a, by simp [h3], by simp [h4], ?_⟩
        intro b hb
        rcases List.mem_cons.mp hb with rfl | hb
        · exact hc
        · exact h5 b hb
    rw [getSchemeLoop] at h
    split at h
    · next hl => exact hrec h (by simp only [schemeChar]; simp only [hl]; simp)
    · split at h
      · next hl hd =>
        split at h
        · simp only [Result.ok.injEq, Prod.mk.injEq] at h
          exact Or.inl ⟨h.1.symm, h.2.symm⟩
        · refine hrec h ?_
          simp only [schemeChar]
          simp only [Bool.or_eq_true, decide_eq_true_eq] at hd ⊢
          tauto
      · split at h
        · next hcol =>
          split at h
          · cases h
          · simp only [Result.ok.injEq, Prod.mk.injEq] at h
            refine Or.inr ⟨[], by simp [h.1], by simp [hcol, h.2], by simp⟩
        · simp only [Result.ok.injEq, Prod.mk.injEq] at h
          exact Or.inl ⟨h.1.symm, h.2.symm⟩

theorem getScheme_ok (raw sch rest : GoString) (h : getScheme raw = .ok (sch, rest)) :
    (sch = [] ∧ rest = raw) ∨ (raw = sch ++ 58 :: rest ∧ ∀ b ∈ sch, schemeChar b = true) := by
  rcases getSchemeLoop_ok raw raw [] sch rest h with h1 | ⟨a, h1, h2, h3⟩
  · exact Or.inl h1
  · simp at h1; subst h1; exact Or.inr ⟨h2, h3⟩

theorem cut_fst_ne (sep : Byte) (s : GoString) : ∀ b ∈ (cut sep s).1, b ≠ sep := by
  induction s with
  | nil => intro b hb; simp [cut] at hb
  | cons c t ih =>
    intro b hb
    by_cases hc : c = sep
    · simp [cut, hc] at hb
    · simp only [cut, hc, if_false, List.mem_cons] at hb
      rcases hb with rfl | hb
      · exact hc
      · exact ih b hb

theorem cut_fst_mem (sep : Byte) (s : GoString) : ∀ b ∈ (cut sep s).1, b ∈ s := by
  induction s with
  | nil => intro b hb; simp [cut] at hb
  | cons c t ih =>
    intro b hb
    by_cases hc : c = sep
    · simp [cut, hc] at hb
    · simp only [cut, hc, if_false, List.mem_cons] at hb
      rcases hb with rfl | hb
      · simp
      · exact List.mem_cons_of_mem _ (ih b hb)

theorem cut_append_left (sep : Byte) (a t : GoString) (h : ∀ x ∈ a, x ≠ sep) :
    cut sep (a ++ t) = (a ++ (cut sep t).1, (cut sep t).2.1, (cut sep t).2.2) := by
  induction a with
  | nil => simp
  | cons x a ih =>
    have hx : x ≠ sep := h x (by simp)
    have := ih (fun y hy => h y (by simp [hy]))
    simp [cut, hx, this]

theorem cut_of_last_unique (sep : Byte) (l : GoString) (hl : l.getLast? = some sep)
    (hc : l.count sep = 1) : cut sep l = (l.dropLast, [], true) := by
  induction l with
  | nil => simp at hl
  | cons c t ih =>
    cases t with
    | nil =>
      simp at hl
      simp [cut, hl]
    | cons d t2 =>
      have hl2 : (d :: t2).getLast? = some sep := by
        simpa [List.getLast?_cons_cons] using hl
      have hmem : sep ∈ d :: t2 := List.mem_of_getLast?_eq_some hl2
      have hne : c ≠ sep := by
        intro e
        subst e
        rw [List.count_cons_self] at hc
        have : List.count c (d :: t2) = 0 := by omega
        exact (List.count_eq_zero.mp this) hmem
      have hc2 : List.count sep (d :: t2) = 1 := by
        rw [List.count_cons_of_ne (fun e => hne e.symm)] at hc
        exact hc
      have := ih hl2 hc2
      rw [cut]
      simp only [hne, if_false, this, List.dropLast_cons₂]

set_option maxRecDepth 100000 in
theorem schemeChar_lower_noDelim : ∀ c : Byte, schemeChar c = true →
    (if 65 ≤ c.val && c.val ≤ 90 then (Fin.ofNat (c.val + 32) : Byte) else c) ≠ 63 ∧
    (if 65 ≤ c.val && c.val ≤ 90 then (Fin.ofNat (c.val + 32) : Byte) else c) ≠ 35 ∧
    c ≠ 63 := by
  decide

theorem toLowerASCII_noDelim (s : GoString) (h : ∀ b ∈ s, schemeChar b = true) :
    NoDelim (toLowerASCII s) := by
  intro b hb
  simp only [toLowerASCII, List.mem_map] at hb
  obtain ⟨c, hc, rfl⟩ := hb
  have := schemeChar_lower_noDelim c (h c hc)
  exact ⟨this.1, this.2.1⟩

theorem setPath_ok (u u2 : URL) (p : GoString) (h : u.setPath p = .ok u2) :
    u2.Scheme = u.Scheme ∧ u2.Opaque = u.Opaque ∧ u2.RawQuery = u.RawQuery := by
  unfold URL.setPath at h
  split at h
  · cases h
  · split at h <;> (cases h; simp)

theorem setFragment_ok (u u2 : URL) (f : GoString) (h : u.setFragment f = .ok u2) :
    u2.Scheme = u.Scheme ∧ u2.Opaque = u.Opaque ∧ u2.RawQuery = u.RawQuery := by
  unfold URL.setFragment at h
  split at h
  · cases h
  · split at h <;> (cases h; simp)

theorem parse_ok (raw : GoString) (u : URL) (h : parse raw = .ok u) (h35 : ∀ b ∈ raw, b ≠ 35) :
    NoDelim u.Scheme ∧ NoDelim u.Opaque ∧ u.RawQuery = (cut 63 raw).2.1 := by
  unfold parse at h
  split at h
  · cases h
  · split at h
    · next hstar =>
      cases h
      subst hstar
      exact ⟨NoDelim_nil, NoDelim_nil, by decide⟩
    · split at h
      · cases h
      · next scheme0 rest0 hsch =>
        -- facts about the scheme and the rest
        have hs := getScheme_ok raw scheme0 rest0 hsch
        have hSch : NoDelim (toLowerASCII scheme0) := by
          rcases hs with ⟨h1, _⟩ | ⟨_, h2⟩
          · subst h1; exact NoDelim_nil
          · exact toLowerASCII_noDelim _ h2
        have hrest35 : ∀ b ∈ rest0, b ≠ 35 := by
          intro b hb
          rcases hs with ⟨_, h2⟩ | ⟨h1, _⟩
          · subst h2; exact h35 b hb
          · exact h35 b (by rw [h1]; simp [hb])
        have hcutraw : (cut 63 raw).2.1 = (cut 63 rest0).2.1 := by
          rcases hs with ⟨_, h2⟩ | ⟨h1, h2⟩
          · rw [h2]
          · have h3 : ∀ x ∈ scheme0 ++ [58], x ≠ 63 := by
              intro x hx
              rcases List.mem_append.mp hx with hx | hx
              · exact (schemeChar_lower_noDelim x (h2 x hx)).2.2
              · simp at hx; subst hx; decide
            have := cut_append_left 63 (scheme0 ++ [58]) rest0 h3
            rw [h1]
            simp only [List.append_assoc, List.singleton_append] at this
            rw [this]
        -- the rest and the query, whichever way the query was cut off
        have hforce : ∀ hf : (rest0.getLast? = some 63 && rest0.count 63 = 1) = true,
            rest0.dropLast = (cut 63 rest0).1 ∧ ([] : GoString) = (cut 63 rest0).2.1 := by
          intro hf
          simp only [Bool.and_eq_true, decide_eq_true_eq] at hf
          have := cut_of_last_unique 63 rest0 (by simpa using hf.1) hf.2
          rw [this]
          exact ⟨rfl, rfl⟩
        have hrest1 : (if (rest0.getLast? = some 63 && rest0.count 63 = 1) = true
            then rest0.dropLast else (cut 63 rest0).1) = (cut 63 rest0).1 := by
          split
          · next hf => exact (hforce hf).1
          · rfl
        have hq : (if (rest0.getLast? = some 63 && rest0.count 63 = 1) = true
            then ([] : GoString) else (cut 63 rest0).2.1) = (cut 63 rest0).2.1 := by
          split
          · next hf => exact (hforce hf).2
          · rfl
        have hO : NoDelim (cut 63 rest0).1 := fun b hb =>
          ⟨cut_fst_ne 63 rest0 b hb, hrest35 b (cut_fst_mem 63 rest0 b hb)⟩
        simp only [hrest1, hq] at h
        split at h
        · cases h
          exact ⟨hSch, hO, hcutraw.symm⟩
        · split at h
          · cases h
          · split at h
            · split at h
              · cases h
              · have := setPath_ok _ _ _ h
                rw [this.1, this.2.1, this.2.2]
                exact ⟨hSch, NoDelim_nil, hcutraw.symm⟩
            · split at h
              · have := setPath_ok _ _ _ h
                rw [this.1, this.2.1, this.2.2]
                exact ⟨hSch, NoDelim_nil, hcutraw.symm⟩
              · have := setPath_ok _ _ _ h
                rw [this.1, this.2.1, this.2.2]
                exact ⟨hSch, NoDelim_nil, hcutraw.symm⟩

/-- What `url.Parse` guarantees about the fields that `String` writes before the
query, and about the query itself. -/
theorem Parse_ok (s : GoString) (u : URL) (h : Parse s = .ok u) :
    NoDelim u.Scheme ∧ NoDelim u.Opaque ∧ u.RawQuery = rawQueryOf s := by
  unfold Parse at h
  have h35 : ∀ b ∈ (cut 35 s).1, b ≠ 35 := cut_fst_ne 35 s
  split at h
  · cases h
  · next url hp =>
    have hu := parse_ok _ _ hp h35
    split at h
    · cases h; exact hu
    · split at h
      · cases h
      · next url2 hf =>
        cases h
        have := setFragment_ok _ _ _ hf
        rw [this.1, this.2.1, this.2.2]
        exact hu

theorem rawQueryOf_String (u : URL) (hB : NoDelim u.beforeQuery) (hQ : NoDelim u.RawQuery) :
    rawQueryOf u.String = u.RawQuery := by
  have hA : ∀ x ∈ u.beforeQuery ++ (if u.ForceQuery || u.RawQuery ≠ [] then 63 :: u.RawQuery else []),
      x ≠ 35 := by
    intro x hx
    rcases List.mem_append.mp hx with hx | hx
    · exact (hB x hx).2
    · split at hx
      · rcases List.mem_cons.mp hx with rfl | hx
        · decide
        · exact (hQ x hx).2
      · simp at hx
  have h1 : (cut 35 u.String).1 =
      u.beforeQuery ++ (if u.ForceQuery || u.RawQuery ≠ [] then 63 :: u.RawQuery else []) := by
    unfold URL.String
    by_cases hf : u.Fragment ≠ []
    · rw [if_pos hf, cut_append_sep 35 _ _ hA]
    · rw [if_neg hf, List.append_nil, cut_no_sep 35 _ hA]
  unfold rawQueryOf
  rw [h1]
  have hB63 : ∀ x ∈ u.beforeQuery, x ≠ 63 := fun x hx => (hB x hx).1
  by_cases hq : (u.ForceQuery || u.RawQuery ≠ []) = true
  · rw [if_pos hq, cut_append_sep 63 _ _ hB63]
  · rw [if_neg hq, List.append_nil, cut_no_sep 63 _ hB63]
    simp only [Bool.or_eq_true, decide_eq_true_eq, not_or, ne_eq, not_not] at hq
    exact hq.2.symm

theorem get_foldl_Set_of_not_mem (params : RequestQueries) (k : GoString)
    (hk : k ∉ params.map Prod.fst) :
    ∀ q : Values, (params.foldl (fun q kv => q.Set kv.1 kv.2) q).get k = q.get k := by
  induction params with
  | nil => intro q; rfl
  | cons p ps ih =>
    intro q
    simp only [List.map_cons, List.mem_cons, not_or] at hk
    rw [List.foldl_cons, ih hk.2, Values.Set, Values.get_put]
    have hne : ¬ p.1 = k := fun e => hk.1 e.symm
    simp [hne]

theorem get_foldl_Set_of_mem (params : RequestQueries) (hnd : (params.map Prod.fst).Nodup)
    (k v : GoString) (hkv : (k, v) ∈ params) :
    ∀ q : Values, (params.foldl (fun q kv => q.Set kv.1 kv.2) q).get k = some [v] := by
  induction params with
  | nil => simp at hkv
  | cons p ps ih =>
    intro q
    simp only [List.map_cons, List.nodup_cons] at hnd
    rw [List.foldl_cons]
    rcases List.mem_cons.mp hkv with h | h
    · subst h
      rw [get_foldl_Set_of_not_mem ps k hnd.1, Values.Set, Values.get_put]
      simp
    · exact ih hnd.2 h _

theorem foldl_Set_WF (params : RequestQueries) :
    ∀ q : Values, q.WF → (params.foldl (fun q kv => q.Set kv.1 kv.2) q).WF := by
  induction params with
  | nil => intro q h; exact h
  | cons p ps ih => intro q h; exact ih _ (Values.WF_Set _ _ _ h)

/-- What `EncodeURL` returns for an `api` that parses. -/
theorem EncodeURL_of_Parse_ok (api : GoString) (params : RequestQueries) (u : URL)
    (h : Parse api = .ok u) :
    EncodeURL api params =
      (({ u with RawQuery :=
          (params.foldl (fun q kv => q.Set kv.1 kv.2) u.Query).Encode } : URL).String, none) := by
  simp [EncodeURL, h]

theorem rawQueryOf_EncodeURL (api : GoString) (params : RequestQueries) (u : URL)
    (h : Parse api = .ok u) :
    rawQueryOf (EncodeURL api params).1 =
      (params.foldl (fun q kv => q.Set kv.1 kv.2) u.Query).Encode := by
  rw [EncodeURL_of_Parse_ok api params u h]
  have hu := Parse_ok api u h
  exact rawQueryOf_String _ (beforeQuery_noDelim _ hu.1 hu.2.1) (Encode_noDelim _)

/-! ### The limit on the number of query parameters -/

theorem count_amp_encodePair (p : GoString × GoString) : (encodePair p).count 38 = 0 :=
  List.count_eq_zero.mpr (fun h => encodePair_no_amp p 38 h rfl)

theorem count_amp_joinPairs (ps : List (GoString × GoString)) :
    (joinPairs ps).count 38 = ps.length - 1 := by
  induction ps with
  | nil => simp [joinPairs]
  | cons p ps ih =>
    cases ps with
    | nil => simp [joinPairs, count_amp_encodePair]
    | cons q qs =>
      rw [joinPairs, List.count_append, count_amp_encodePair, List.count_cons_self, ih]
      simp

theorem mem_joinPairs (ps : List (GoString × GoString)) (b : Byte) (hb : b ∈ joinPairs ps) :
    b = 38 ∨ ∃ p ∈ ps, b ∈ encodePair p := by
  induction ps with
  | nil => simp [joinPairs] at hb
  | cons p ps ih =>
    cases ps with
    | nil => right; exact ⟨p, by simp, by simpa [joinPairs] using hb⟩
    | cons q qs =>
      rw [joinPairs] at hb
      rcases List.mem_append.mp hb with h | h
      · right; exact ⟨p, by simp, h⟩
      · rcases List.mem_cons.mp h with h | h
        · left; exact h
        · rcases ih h with h | ⟨r, hr, hbr⟩
          · left; exact h
          · right; exact ⟨r, List.mem_cons_of_mem _ hr, hbr⟩

/-- What `url.Parse` returns for a string that is a `?` followed by a non-empty
query without `?`, `#` and control bytes. -/
theorem Parse_query_only (q : GoString) (hne : q ≠ []) (hnd : NoDelim q)
    (hctl : ∀ b ∈ q, ¬ (b.val < 32 ∨ b.val = 127)) :
    Parse (63 :: q) = .ok { RawQuery := q } := by
  have h35 : ∀ x ∈ (63 :: q : GoString), x ≠ 35 := by
    intro x hx
    rcases List.mem_cons.mp hx with rfl | hx
    · decide
    · exact (hnd x hx).2
  have hlast : (63 :: q : GoString).getLast? ≠ some 63 := by
    intro h
    have hm : (63 : Byte) ∈ q := by
      cases q with
      | nil => exact absurd rfl hne
      | cons c cs =>
        rw [List.getLast?_cons_cons] at h
        exact List.mem_of_getLast?_eq_some h
    exact (hnd 63 hm).1 rfl
  have hc : stringContainsCTLByte (63 :: q) = false := by
    simp only [stringContainsCTLByte, List.any_cons, Bool.or_eq_false_iff, List.any_eq_false]
    refine ⟨by decide, fun x hx => ?_⟩
    have := hctl x hx
    simpa using this
  have hq42 : (63 :: q : GoString) ≠ [42] := by simp
  have hs : getScheme (63 :: q) = .ok ([], 63 :: q) := by
    have e1 : ((97 ≤ (63 : Byte).val && (63 : Byte).val ≤ 122) ||
        (65 ≤ (63 : Byte).val && (63 : Byte).val ≤ 90)) = false := by decide
    have e2 : ((48 ≤ (63 : Byte).val && (63 : Byte).val ≤ 57) || (63 : Byte) = 43 ||
        (63 : Byte) = 45 || (63 : Byte) = 46) = false := by decide
    have e3 : ((63 : Byte) = 58) = False := by simp
    rw [getScheme, getSchemeLoop]
    simp only [e1, e2, e3, Bool.false_eq_true, if_false]
  have hp : parse (63 :: q) = .ok { RawQuery := q } := by
    unfold parse
    simp only [hc, hs]
    simp [hq42, hlast, cut, toLowerASCII, containsByte, URL.setPath, unescape, unescapeCheck,
      unescapeDecode, escape]
  unfold Parse
  rw [cut_no_sep 35 _ h35]
  simp [hp]


theorem parseQueryLoop_amps (n : Nat) :
    ∀ (fuel : Nat) (m : Values) (err : Option GoError), n ≤ fuel →
      parseQueryLoop fuel m err (List.replicate n 38) = (m, err) := by
  induction n with
  | zero => intro fuel m err _; exact parseQueryLoop_nil fuel m err
  | succ n ih =>
    intro fuel m err hf
    cases fuel with
    | zero => omega
    | succ fuel =>
      rw [parseQueryLoop]
      simp only [List.replicate_succ, cut, if_true, containsByte, List.contains_nil,
        Bool.false_eq_true, if_false]
      simp only [reduceCtorEq, if_false]
      exact ih fuel m err (by omega)

set_option maxRecDepth 100000 in
/-- The parameters of the query `a=1&&...&`: the one pair, however many `&`
follow it. -/
theorem queryParams_pair_amps (n : Nat) :
    queryParams (str "a=1" ++ List.replicate n 38) = ([(str "a", [str "1"])], none) := by
  have hp : encodePair (str "a", str "1") = str "a=1" := by decide
  cases n with
  | zero =>
    have : queryParams (str "a=1") = ([(str "a", [str "1"])], none) := by decide
    simpa using this
  | succ n =>
    have hc : cut 38 (str "a=1" ++ List.replicate (n + 1) 38) =
        (encodePair (str "a", str "1"), List.replicate n 38, true) := by
      rw [hp, List.replicate_succ]
      exact cut_append_sep 38 (str "a=1") (List.replicate n 38) (by decide)
    have hl : (str "a=1" ++ List.replicate (n + 1) 38).length = (n + 3) + 1 := by
      simp [str]
    rw [queryParams, hl, parseQueryLoop_step (n + 3) [] none _ (List.replicate n 38)
      (str "a", str "1") true (by simp [str]) hc, parseQueryLoop_amps n (n + 3) _ _ (by omega)]
    rfl

/-- What `EncodeURL` makes of `?a=1` followed by at least 10000 `&`: the query is
refused for its number of parameters, `Query()` is empty, and nothing of it is
written back. -/
theorem EncodeURL_query_refused (n : Nat) (h : 10000 ≤ n) :
    Parse (63 :: (str "a=1" ++ List.replicate n 38)) =
      .ok { RawQuery := str "a=1" ++ List.replicate n 38 } ∧
    EncodeURL (63 :: (str "a=1" ++ List.replicate n 38)) [] = ([], none) := by
  have hmem : ∀ b ∈ str "a=1" ++ List.replicate n 38, b = 97 ∨ b = 61 ∨ b = 49 ∨ b = 38 := by
    intro b hb
    rcases List.mem_append.mp hb with hb | hb
    · have : b ∈ ([97, 61, 49] : GoString) := hb
      simp at this; tauto
    · exact Or.inr (Or.inr (Or.inr (List.eq_of_mem_replicate hb)))
  have hP := Parse_query_only (str "a=1" ++ List.replicate n 38) (by simp [str])
    (fun b hb => by rcases hmem b hb with h | h | h | h <;> subst h <;> decide)
    (fun b hb => by rcases hmem b hb with h | h | h | h <;> subst h <;> decide)
  refine ⟨hP, ?_⟩
  have hcount : 10000 ≤ (str "a=1" ++ List.replicate n 38).count 38 := by
    rw [List.count_append, List.count_replicate_self]; omega
  rw [EncodeURL_of_Parse_ok _ _ _ hP, URL.Query]
  simp only [ParseQuery_of_exceeded _ hcount, List.foldl_nil]
  rfl


theorem foldl_add_replicate (k v : GoString) (n : Nat) :
    ∀ vs : List GoString,
      (List.replicate n (k, v)).foldl (fun (m : Values) p => m.add p.1 p.2) [(k, vs)] =
        ([(k, vs ++ List.replicate n v)] : Values) := by
  induction n with
  | zero => intro vs; simp
  | succ n ih =>
    intro vs
    rw [List.replicate_succ, List.foldl_cons]
    have : Values.add [(k, vs)] k v = [(k, vs ++ [v])] := by
      simp [Values.add, Values.put, Values.get]
    rw [this, ih, List.append_assoc]
    rfl

theorem rawQueryOf_query_only (q : GoString) (hnd : NoDelim q) : rawQueryOf (63 :: q) = q := by
  have h35 : ∀ x ∈ (63 :: q : GoString), x ≠ 35 := by
    intro x hx
    rcases List.mem_cons.mp hx with rfl | hx
    · decide
    · exact (hnd x hx).2
  rw [rawQueryOf, cut_no_sep 35 _ h35]
  simp [cut]

set_option maxRecDepth 100000 in
/-- What `EncodeURL` makes of the query `a=&a=&...&a=` (`n` times `a=`, at most
10000) and the new key `b`: the query with the pair `b=` appended. -/
theorem EncodeURL_query_grows (n : Nat) (h1 : 0 < n) (h2 : n ≤ 10000) :
    Parse (63 :: joinPairs (List.replicate n (str "a", []))) =
      .ok { RawQuery := joinPairs (List.replicate n (str "a", [])) } ∧
    EncodeURL (63 :: joinPairs (List.replicate n (str "a", []))) [(str "b", [])] =
      (63 :: joinPairs (List.replicate n (str "a", []) ++ [(str "b", [])]), none) := by
  obtain ⟨k, rfl⟩ : ∃ k, n = k + 1 := ⟨n - 1, by omega⟩
  have hp : encodePair (str "a", []) = [97, 61] := by decide
  have hmem : ∀ b ∈ joinPairs (List.replicate (k + 1) (str "a", [])), b = 38 ∨ b = 97 ∨ b = 61 := by
    intro b hb
    rcases mem_joinPairs _ b hb with h | ⟨p, hp1, hp2⟩
    · exact Or.inl h
    · rw [List.eq_of_mem_replicate hp1, hp] at hp2
      simp at hp2; tauto
  have hne : joinPairs (List.replicate (k + 1) (str "a", [])) ≠ [] := by
    rw [List.replicate_succ, joinPairs_cons]
    simp [encodePair_ne_nil]
  have hP := Parse_query_only _ hne (joinPairs_noDelim _)
    (fun b hb => by rcases hmem b hb with h | h | h <;> subst h <;> decide)
  refine ⟨hP, ?_⟩
  have hcount : (joinPairs (List.replicate (k + 1) (str "a", []))).count 38 < 10000 := by
    rw [count_amp_joinPairs, List.length_replicate]; omega
  have hq : (queryParams (joinPairs (List.replicate (k + 1) (str "a", [])))).1 =
      [(str "a", List.replicate (k + 1) [])] := by
    rw [queryParams, parseQueryLoop_joinPairs _ _ _ _ (le_refl _), List.replicate_succ,
      List.foldl_cons]
    have : Values.add [] (str "a") [] = [(str "a", [[]])] := by decide
    simp only [this]
    rw [foldl_add_replicate]
    rfl
  have hsort : sortStrings [str "a", str "b"] = [str "a", str "b"] := by decide
  have hab : (str "a" = str "b") = False := by simp; decide
  rw [EncodeURL_of_Parse_ok _ _ _ hP, URL.Query]
  simp only [ParseQuery_of_within _ hcount, hq, List.foldl_cons, List.foldl_nil]
  rw [Values.Encode_eq]
  have hpairs : (Values.Set [(str "a", List.replicate (k + 1) [])] (str "b") []).pairs =
      List.replicate (k + 1) (str "a", []) ++ [(str "b", [])] := by
    simp only [Values.Set, Values.put, hab, if_false, Values.pairs, Values.keys, List.map_cons,
      List.map_nil, hsort, List.flatMap_cons, List.flatMap_nil, Values.get, if_true,
      Option.getD_some, List.map_replicate, List.append_nil]
  rw [hpairs]
  have hne2 : joinPairs (List.replicate (k + 1) (str "a", []) ++ [(str "b", [])]) ≠ [] := by
    rw [List.replicate_succ, List.cons_append, joinPairs_cons]
    simp [encodePair_ne_nil]
  simp [URL.String, URL.beforeQuery, URL.schemePart, URL.authorityPart, URL.slashPart,
    URL.dotPart, URL.EscapedPath, hne2, escape, containsByte, cut]

/-- The pairs that `Encode` writes for a key that holds one value: that one pair. -/
theorem filter_pairs_of_get (v : Values) (h : v.WF) (k x : GoString)
    (hg : v.get k = some [x]) : v.pairs.filter (fun p => p.1 = k) = [(k, x)] := by
  have hv := valuesOf_pairs v h k
  rw [hg, valuesOf] at hv
  simp only [Option.getD_some] at hv
  have hall : ∀ p ∈ v.pairs.filter (fun p => p.1 = k), p.1 = k := by
    intro p hp
    simpa using (List.mem_filter.mp hp).2
  generalize v.pairs.filter (fun p => p.1 = k) = l at hv hall
  match l, hv, hall with
  | [p], hv, hall =>
    have h1 : p.1 = k := hall p (by simp)
    have h2 : p.2 = x := by simpa using hv
    rw [← h1, ← h2]
  | [], hv, _ => simp at hv
  | _ :: _ :: _, hv, _ => simp at hv

/-! ### Claims about `EncodeURL`, `TokenAPI` and `GetQuery` -/

/-- C1 (as amended): for every `api` that `url.Parse` accepts and whose query
component holds fewer than 10000 `&` (at most 10000 parameters), and every `params`
map (its keys pairwise different, visited in any order) for which the query
component of the returned string holds fewer than 10000 `&` too, `EncodeURL` returns
no error, and the query component of the returned string, parsed with
`url.ParseQuery`, parses without error and maps every key `k` of `params` to exactly
`[params[k]]`, gives every other key the value list it has among the parameters of
the query component of `api` (the pairs that the loop of `url.ParseQuery` accepts,
which are what `url.ParseQuery` returns for `api`), and so holds no further key.
Whenever `url.Parse` accepts the returned string again, the `RawQuery` it extracts
is that query component. -/
theorem EncodeURL_query_contents (api : GoString) (params : RequestQueries) (u : URL)
    (hparse : Parse api = .ok u) (hkeys : (params.map Prod.fst).Nodup)
    (hin : (rawQueryOf api).count 38 < 10000)
    (hout : (rawQueryOf (EncodeURL api params).1).count 38 < 10000) :
    (EncodeURL api params).2 = none ∧
    (ParseQuery (rawQueryOf (EncodeURL api params).1)).2 = none ∧
    (∀ k v, (k, v) ∈ params →
      (ParseQuery (rawQueryOf (EncodeURL api params).1)).1.get k = some [v]) ∧
    (∀ k, k ∉ params.map Prod.fst →
      (ParseQuery (rawQueryOf (EncodeURL api params).1)).1.get k =
        (queryParams (rawQueryOf api)).1.get k) ∧
    ParseQuery (rawQueryOf api) = queryParams (rawQueryOf api) ∧
    (∀ u2, Parse (EncodeURL api params).1 = .ok u2 →
      u2.RawQuery = rawQueryOf (EncodeURL api params).1) := by
  have hwf : (params.foldl (fun q kv => q.Set kv.1 kv.2) u.Query).WF :=
    foldl_Set_WF params _ (URL.Query_WF u)
  have hrt := queryParams_Encode _ hwf
  have hQ : u.Query = (queryParams (rawQueryOf api)).1 := by
    rw [URL.Query, (Parse_ok api u hparse).2.2, ParseQuery_of_within _ hin]
  rw [ParseQuery_of_within _ hout, rawQueryOf_EncodeURL api params u hparse]
  refine ⟨?_, hrt.1, ?_, ?_, ParseQuery_of_within _ hin, ?_⟩
  · rw [EncodeURL_of_Parse_ok api params u hparse]
  · intro k v hkv
    rw [hrt.2 k]
    exact get_foldl_Set_of_mem params hkeys k v hkv _
  · intro k hk
    rw [hrt.2 k, ← hQ]
    exact get_foldl_Set_of_not_mem params k hk _
  · intro u2 h2
    rw [(Parse_ok _ u2 h2).2.2, rawQueryOf_EncodeURL api params u hparse]

/-- Witness for C1: `EncodeURL_query_contents` at the URL
`http://h/p?b=1&a=2&a=3#f` and the parameters `a = "x y"`, `c = "&"`. -/
theorem EncodeURL_query_contents_witness :
    (EncodeURL (str "http://h/p?b=1&a=2&a=3#f") [(str "a", str "x y"), (str "c", str "&")]).1 =
      str "http://h/p?a=x+y&b=1&c=%26#f" ∧
    (ParseQuery (rawQueryOf (EncodeURL (str "http://h/p?b=1&a=2&a=3#f")
      [(str "a", str "x y"), (str "c", str "&")]).1)).1.get (str "a") = some [str "x y"] :=
  ⟨by decide,
   (EncodeURL_query_contents (str "http://h/p?b=1&a=2&a=3#f")
      [(str "a", str "x y"), (str "c", str "&")]
      { Scheme := str "http", Host := str "h", Path := str "/p", RawQuery := str "b=1&a=2&a=3",
        Fragment := str "f" }
      (by decide) (by decide) (by decide) (by decide)).2.2.1 (str "a") (str "x y") (by decide)⟩

/-- Counterexamples for C1 as stated, each for an `api` that `url.Parse` accepts.
(1) For `/%2F ` (the path `// ` with the raw path `/%2F `, which is not a valid
encoding because of the space) `EncodeURL` returns `//%20?k=v`, and `url.Parse`
rejects that string: it reads `%20` as a host, where such an escape is not allowed.
So the returned URL cannot be re-parsed.
(2) For `?a=1` followed by 10000 `&` the query carries the parameter `a=1`, but
`url.ParseQuery` refuses a query of more than 10000 parameters (it counts the `&`),
`Query()` is empty and `EncodeURL` with an empty map returns the empty string: the
key `a` is lost.
(3) For `?a=&a=&...&a=` with 10000 times `a=` (9999 `&`) and the map `b = ""`,
`EncodeURL` returns the query with `&b=` appended, which holds 10001 parameters;
`url.ParseQuery` refuses it and returns no key at all.
(4) For `?a=1;b=2&c=3` and for `?a=%zz&c=3` with an empty map `EncodeURL` returns
`?c=3`: `url.ParseQuery` skips a pair with a semicolon or a bad escape, so the text
before the `&` is no parameter of the query and is not written back. -/
theorem EncodeURL_query_counterexamples :
    (Parse (str "/%2F ") = .ok { Path := str "// ", RawPath := str "/%2F " } ∧
      EncodeURL (str "/%2F ") [(str "k", str "v")] = (str "//%20?k=v", none) ∧
      Parse (str "//%20?k=v") =
        .err (.parseError (str "//%20?k=v") (.escapeError (str "%20")))) ∧
    (Parse (63 :: (str "a=1" ++ List.replicate 10000 38)) =
        .ok { RawQuery := str "a=1" ++ List.replicate 10000 38 } ∧
      (queryParams (str "a=1" ++ List.replicate 10000 38)).1.get (str "a") = some [str "1"] ∧
      EncodeURL (63 :: (str "a=1" ++ List.replicate 10000 38)) [] = ([], none) ∧
      (ParseQuery (rawQueryOf
        (EncodeURL (63 :: (str "a=1" ++ List.replicate 10000 38)) []).1)).1.get (str "a") =
          none) ∧
    (Parse (63 :: joinPairs (List.replicate 10000 (str "a", []))) =
        .ok { RawQuery := joinPairs (List.replicate 10000 (str "a", [])) } ∧
      (rawQueryOf (63 :: joinPairs (List.replicate 10000 (str "a", [])))).count 38 = 9999 ∧
      EncodeURL (63 :: joinPairs (List.replicate 10000 (str "a", []))) [(str "b", [])] =
        (63 :: joinPairs (List.replicate 10000 (str "a", []) ++ [(str "b", [])]), none) ∧
      ParseQuery (rawQueryOf
        (EncodeURL (63 :: joinPairs (List.replicate 10000 (str "a", []))) [(str "b", [])]).1) =
          ([], some .tooManyQueryParams)) ∧
    (EncodeURL (str "?a=1;b=2&c=3") [] = (str "?c=3", none) ∧
      EncodeURL (str "?a=%zz&c=3") [] = (str "?c=3", none)) := by
  refine ⟨by decide, ⟨(EncodeURL_query_refused 10000 (le_refl _)).1, ?_,
    (EncodeURL_query_refused 10000 (le_refl _)).2, ?_⟩,
    ⟨(EncodeURL_query_grows 10000 (by omega) (le_refl _)).1, ?_,
      (EncodeURL_query_grows 10000 (by omega) (le_refl _)).2, ?_⟩, ⟨by decide, by decide⟩⟩
  · rw [queryParams_pair_amps]; decide
  · rw [(EncodeURL_query_refused 10000 (le_refl _)).2]; decide
  · rw [rawQueryOf_query_only _ (joinPairs_noDelim _), count_amp_joinPairs,
      List.length_replicate]
  · rw [(EncodeURL_query_grows 10000 (by omega) (le_refl _)).2]
    simp only
    rw [rawQueryOf_query_only _ (joinPairs_noDelim _)]
    refine ParseQuery_of_exceeded _ ?_
    rw [count_amp_joinPairs, List.length_append, List.length_replicate, List.length_singleton]

/-- C2: `EncodeURL` returns an error exactly when `url.Parse` rejects `api`; the
error wraps the parse error, and the returned string is then empty for every
`params`; when `api` parses the error is nil; `EncodeURL("not a url \x00", {})`
fails (with "invalid control character in URL"). -/
theorem EncodeURL_error_iff (api : GoString) (params : RequestQueries) :
    ((EncodeURL api params).2 ≠ none ↔ ∃ e, Parse api = .err e) ∧
    (∀ e, Parse api = .err e → EncodeURL api params = ([], some (.withStack e))) ∧
    (∀ u, Parse api = .ok u → (EncodeURL api params).2 = none) ∧
    EncodeURL (str "not a url \x00") [] =
      ([], some (.withStack (.parseError (str "not a url \x00") .invalidControlCharacter))) := by
  refine ⟨?_, ?_, ?_, by decide⟩
  · cases h : Parse api with
    | ok u => simp [EncodeURL, h]
    | err e => simp [EncodeURL, h]
  · intro e h; simp [EncodeURL, h]
  · intro u h; simp [EncodeURL, h]

/-- C3: `TokenAPI(api, token)` is `EncodeURL(api, {"access_token": token})`, and for
every `api` that parses and every `token` it returns no error and the query
component of the returned string is a list of pairs `QueryEscape(key) =
QueryEscape(value)` joined by `&`, exactly one of which has the key `access_token`,
and its value is `token`: whatever `access_token` values `api` carried, whatever
bytes `token` contains.  Read back, the parameters of that query are well formed
and hold the one value `token` for `access_token`; `url.ParseQuery` reads exactly
these whenever the query holds fewer than 10000 `&`. -/
theorem TokenAPI_access_token_once (api token : GoString) (u : URL)
    (hparse : Parse api = .ok u) :
    TokenAPI api token = EncodeURL api [(str "access_token", token)] ∧
    (TokenAPI api token).2 = none ∧
    (∃ ps, rawQueryOf (TokenAPI api token).1 = joinPairs ps ∧
      ps.filter (fun p => p.1 = str "access_token") = [(str "access_token", token)]) ∧
    (queryParams (rawQueryOf (TokenAPI api token).1)).2 = none ∧
    (queryParams (rawQueryOf (TokenAPI api token).1)).1.get (str "access_token") =
      some [token] ∧
    ((rawQueryOf (TokenAPI api token).1).count 38 < 10000 →
      (ParseQuery (rawQueryOf (TokenAPI api token).1)).2 = none ∧
      (ParseQuery (rawQueryOf (TokenAPI api token).1)).1.get (str "access_token") =
        some [token]) := by
  have h := EncodeURL_of_Parse_ok api [(str "access_token", token)] u hparse
  have hwf : (([(str "access_token", token)] : RequestQueries).foldl
      (fun q kv => q.Set kv.1 kv.2) u.Query).WF := foldl_Set_WF _ _ (URL.Query_WF u)
  have hrt := queryParams_Encode _ hwf
  have hq := rawQueryOf_EncodeURL api [(str "access_token", token)] u hparse
  have hget : (([(str "access_token", token)] : RequestQueries).foldl
      (fun q kv => q.Set kv.1 kv.2) u.Query).get (str "access_token") = some [token] :=
    get_foldl_Set_of_mem _ (by simp) _ _ (by simp) _
  have h5 : (queryParams (rawQueryOf (TokenAPI api token).1)).1.get (str "access_token") =
      some [token] := by
    rw [TokenAPI, hq, hrt.2]; exact hget
  have h4 : (queryParams (rawQueryOf (TokenAPI api token).1)).2 = none := by
    rw [TokenAPI, hq]; exact hrt.1
  refine ⟨rfl, ?_, ⟨(([(str "access_token", token)] : RequestQueries).foldl
      (fun q kv => q.Set kv.1 kv.2) u.Query).pairs, ?_, ?_⟩, h4, h5, ?_⟩
  · rw [TokenAPI, h]
  · rw [TokenAPI, hq, Values.Encode_eq]
  · exact filter_pairs_of_get _ hwf _ _ hget
  · intro hc
    rw [ParseQuery_of_within _ hc]
    exact ⟨h4, h5⟩

/-- Witness for C3: a URL that already carries two `access_token` parameters,
and a token with bytes that need escaping. -/
theorem TokenAPI_access_token_once_witness :
    (TokenAPI (str "http://h/p?access_token=old&access_token=older&z=1") (str "t/k +")).1 =
      str "http://h/p?access_token=t%2Fk+%2B&z=1" ∧
    (queryParams (rawQueryOf (TokenAPI (str "http://h/p?access_token=old&access_token=older&z=1")
      (str "t/k +")).1)).1.get (str "access_token") = some [str "t/k +"] :=
  ⟨by decide,
   (TokenAPI_access_token_once (str "http://h/p?access_token=old&access_token=older&z=1")
      (str "t/k +")
      { Scheme := str "http", Host := str "h", Path := str "/p",
        RawQuery := str "access_token=old&access_token=older&z=1" }
      (by decide)).2.2.2.2.1⟩

/-- C4 (as amended): for a request that is not nil and whose `URL` is not nil,
`GetQuery` returns (it does not panic): for a key that occurs in the parsed query
of the request URL it returns the first value of the key, and for a key that does
not occur it returns the empty string.  (A key of a parsed query never carries an
empty list, so these are all the cases.) -/
theorem GetQuery_first_value (req : Request) (u : URL) (key : GoString)
    (hurl : req.URL = some u) :
    (∃ s, GetQuery (some req) key = some s) ∧
    (∀ v vs, u.Query.get key = some (v :: vs) → GetQuery (some req) key = some v) ∧
    (u.Query.get key = none → GetQuery (some req) key = some []) ∧
    u.Query.get key ≠ some [] := by
  refine ⟨?_, ?_, ?_, (URL.Query_WF u).2 key⟩
  · simp only [GetQuery, hurl]
    cases u.Query.get key with
    | none => exact ⟨_, rfl⟩
    | some values =>
      by_cases hv : values.length > 0
      · exact ⟨values.headD [], by simp only [hv, if_true]⟩
      · exact ⟨[], by simp only [hv, if_false]⟩
  · intro v vs h; simp [GetQuery, hurl, h]
  · intro h; simp [GetQuery, hurl, h]

/-- Counterexample for C4 as stated: for a request whose `URL` field is nil (such
as the zero value of `http.Request`) and for a nil request, `GetQuery` dereferences a nil pointer
and returns nothing. -/
theorem GetQuery_nil_URL_panics :
    GetQuery (some { URL := none }) (str "k") = none ∧ GetQuery none (str "k") = none :=
  ⟨rfl, rfl⟩

/-! ### `RandomString` -/

theorem letters_length : letters.length = 62 := by decide

set_option maxRecDepth 100000 in
theorem letters_ascii_alnum : ∀ x ∈ letters, encodeRune x = [Fin.ofNat x] ∧
    isAlnum (Fin.ofNat x) = true := by
  decide

theorem randomLoop_spec {σ : Type} (env : RandEnv σ)
    (hIntn : ∀ r k, 0 < k → (env.Intn r k).1 < k) :
    ∀ (idxs : List Nat) (r : σ) (b : List Nat),
      ∃ b2, randomLoop env idxs r b = some b2 ∧ b2.length = b.length ∧
        ∀ j x, b2[j]? = some x → x ∈ letters ∨ (j ∉ idxs ∧ b[j]? = some x) := by
  intro idxs
  induction idxs with
  | nil =>
    intro r b
    exact ⟨b, rfl, rfl, fun j x h => Or.inr ⟨by simp, h⟩⟩
  | cons i rest ih =>
    intro r b
    have hlt : (env.Intn r letters.length).1 < letters.length :=
      hIntn r _ (by rw [letters_length]; decide)
    obtain ⟨b2, h1, h2, h3⟩ := ih (env.Intn r letters.length).2
      (b.set i (letters[(env.Intn r letters.length).1]))
    refine ⟨b2, ?_, ?_, ?_⟩
    · rw [randomLoop, List.getElem?_eq_getElem hlt]
      exact h1
    · rw [h2, List.length_set]
    · intro j x hx
      rcases h3 j x hx with h | ⟨hj, hset⟩
      · exact Or.inl h
      · by_cases hji : i = j
        · subst hji
          left
          rw [List.getElem?_set_self'] at hset
          cases hb : b[i]? with
          | none => rw [hb] at hset; simp at hset
          | some y =>
            rw [hb] at hset
            simp at hset
            rw [← hset]
            exact List.getElem_mem _
        · right
          rw [List.getElem?_set_ne hji] at hset
          refine ⟨?_, hset⟩
          intro hmem
          rcases List.mem_cons.mp hmem with h | h
          · exact hji h.symm
          · exact hj h

/-- The runes written by the loop of `RandomString`. -/
theorem randomLoop_range {σ : Type} (env : RandEnv σ)
    (hIntn : ∀ r k, 0 < k → (env.Intn r k).1 < k) (n : Nat) (r : σ) :
    ∃ b2, randomLoop env (List.range n) r (List.replicate n 0) = some b2 ∧ b2.length = n ∧
      ∀ x ∈ b2, x ∈ letters := by
  obtain ⟨b2, h1, h2, h3⟩ := randomLoop_spec env hIntn (List.range n) r (List.replicate n 0)
  have hlen : b2.length = n := by rw [h2, List.length_replicate]
  refine ⟨b2, h1, hlen, ?_⟩
  intro x hx
  obtain ⟨j, hj, hjx⟩ := List.getElem_of_mem hx
  have hget : b2[j]? = some x := by rw [List.getElem?_eq_getElem hj, hjx]
  rcases h3 j x hget with h | ⟨hnot, _⟩
  · exact h
  · exact absurd (List.mem_range.mpr (hlen ▸ hj)) hnot

theorem stringOfRunes_letters (b : List Nat) (h : ∀ x ∈ b, x ∈ letters) :
    stringOfRunes b = b.map (fun x => (Fin.ofNat x : Byte)) := by
  induction b with
  | nil => rfl
  | cons x b ih =>
    have hx := (letters_ascii_alnum x (h x (by simp))).1
    have := ih (fun y hy => h y (by simp [hy]))
    simp only [stringOfRunes] at this ⊢
    rw [List.flatMap_cons, hx, this]
    rfl

/-- C5: for every length `n ≥ 0`, every seed and every generator whose `Intn(k)`
keeps its contract `0 ≤ Intn(k) < k` for `k > 0`, `RandomString(n)` does not panic
(every index into the 62 letters is in range) and returns a string of exactly `n`
bytes, each of them one of the 62 pairwise different letters and so an ASCII
letter or digit;
`RandomString(0)` is the empty string. -/
theorem RandomString_length_alphabet {σ : Type} (env : RandEnv σ) (now : Int) (n : Nat)
    (hIntn : ∀ r k, 0 < k → (env.Intn r k).1 < k) :
    letters.length = 62 ∧ letters.Nodup ∧
    (∀ r, (env.Intn r letters.length).1 < letters.length) ∧
    (∃ s, RandomString env now n = some s ∧ s.length = n ∧
      (∀ b ∈ s, b.val ∈ letters ∧ isAlnum b = true)) ∧
    RandomString env now 0 = some [] := by
  refine ⟨letters_length, by decide, fun r => hIntn r _ (by rw [letters_length]; decide), ?_, ?_⟩
  · obtain ⟨b2, h1, h2, h3⟩ := randomLoop_range env hIntn n (env.newRand now)
    refine ⟨stringOfRunes b2, ?_, ?_, ?_⟩
    · have hn : ¬ ((n : Int) < 0) := by omega
      simp only [RandomString, hn, if_false, Int.toNat_ofNat, h1]
    · rw [stringOfRunes_letters b2 h3, List.length_map, h2]
    · intro b hb
      rw [stringOfRunes_letters b2 h3, List.mem_map] at hb
      obtain ⟨x, hx, rfl⟩ := hb
      have hl := h3 x hx
      have hlt : x < 256 := by
        have : ∀ y ∈ letters, y < 256 := by decide
        exact this x hl
      refine ⟨?_, (letters_ascii_alnum x hl).2⟩
      have : (Fin.ofNat x : Byte).val = x := by
        simp [Fin.ofNat, Nat.mod_eq_of_lt hlt]
      rw [this]; exact hl
  · simp [RandomString, randomLoop, stringOfRunes]

/-- Witness for C5: the generator `lcgEnv` keeps the contract of `Intn`, and
`RandomString(3)` with seed 7 has three bytes. -/
theorem RandomString_length_alphabet_witness :
    (∀ r k, 0 < k → (lcgEnv.Intn r k).1 < k) ∧
    (∃ s, RandomString lcgEnv 7 (3 : Nat) = some s ∧ s.length = 3 ∧
      (∀ b ∈ s, b.val ∈ letters ∧ isAlnum b = true)) :=
  ⟨fun _ _ hk => Nat.mod_lt _ hk,
   (RandomString_length_alphabet lcgEnv 7 3 (fun _ _ hk => Nat.mod_lt _ hk)).2.2.2.1⟩


/-! ### The request helpers -/

/-- C6: `PostJSONWithBody` leaves as many pooled requests and responses
outstanding as it found.  When serialization fails it returns `(0, nil, err)` and
the world is untouched: nothing is acquired, nothing is sent.  Otherwise it
acquires one request and one response, sends the request (content type
`application/json`, method `POST`, the given URL, the serialized body) and
releases the response and the request, each exactly once, before it returns;
the result is `(0, nil, err)` when the transport fails and
`(status code, body, nil)` when it succeeds. -/
theorem PostJSONWithBody_releases_pooled {α τ : Type} (env : Env α τ) (url : GoString)
    (params : Option α) (w : World) :
    (PostJSONWithBody env url params w).2.requestsOut = w.requestsOut ∧
    (PostJSONWithBody env url params w).2.responsesOut = w.responsesOut ∧
    (∀ raw err, env.marshal params = (raw, some err) →
      PostJSONWithBody env url params w = ((0, none, some (.withStack err)), w)) ∧
    (∀ raw, env.marshal params = (raw, none) →
      (PostJSONWithBody env url params w).2.trace =
        w.trace ++ [.acquireRequest, .acquireResponse,
          .fasthttpDo (jsonPostRequest url raw),
          .releaseResponse, .releaseRequest] ∧
      (∀ err resp, env.fasthttpDo (jsonPostRequest url raw) = (some err, resp) →
        (PostJSONWithBody env url params w).1 = (0, none, some (.withStack err))) ∧
      (∀ resp, env.fasthttpDo (jsonPostRequest url raw) = (none, resp) →
        (PostJSONWithBody env url params w).1 = (resp.statusCode, some resp.body, none))) := by
  cases hm : env.marshal params with
  | mk raw merr =>
    cases merr with
    | some e =>
      refine ⟨by simp [PostJSONWithBody, hm], by simp [PostJSONWithBody, hm], ?_, ?_⟩
      · intro raw2 err h; cases h; simp [PostJSONWithBody, hm]
      · intro raw2 h; cases h
    | none =>
      cases hd : env.fasthttpDo (jsonPostRequest url raw) with
      | mk derr resp =>
        have hreq : ∀ r0 : FastRequest, r0.fill url raw = jsonPostRequest url raw :=
          fun _ => rfl
        cases derr with
        | some e =>
          refine ⟨?_, ?_, ?_, ?_⟩
          · simp [PostJSONWithBody, hm, hreq, hd, ReleaseRequest, ReleaseResponse, AcquireRequest,
              AcquireResponse]
          · simp [PostJSONWithBody, hm, hreq, hd, ReleaseRequest, ReleaseResponse, AcquireRequest,
              AcquireResponse]
          · intro raw2 err h; cases h
          · intro raw2 h
            cases h
            refine ⟨?_, ?_, ?_⟩
            · simp [PostJSONWithBody, hm, hreq, hd, ReleaseRequest, ReleaseResponse, AcquireRequest,
                AcquireResponse]
            · intro err resp2 h2
              rw [hd] at h2; cases h2
              simp [PostJSONWithBody, hm, hreq, hd]
            · intro resp2 h2
              rw [hd] at h2; cases h2
        | none =>
          refine ⟨?_, ?_, ?_, ?_⟩
          · simp [PostJSONWithBody, hm, hreq, hd, ReleaseRequest, ReleaseResponse, AcquireRequest,
              AcquireResponse]
          · simp [PostJSONWithBody, hm, hreq, hd, ReleaseRequest, ReleaseResponse, AcquireRequest,
              AcquireResponse]
          · intro raw2 err h; cases h
          · intro raw2 h
            cases h
            refine ⟨?_, ?_, ?_⟩
            · simp [PostJSONWithBody, hm, hreq, hd, ReleaseRequest, ReleaseResponse, AcquireRequest,
                AcquireResponse]
            · intro err resp2 h2
              rw [hd] at h2; cases h2
            · intro resp2 h2
              rw [hd] at h2; cases h2
              simp [PostJSONWithBody, hm, hreq, hd]



/-- C7: `PostJSON` returns an error exactly when `PostJSONWithBody` returns one or,
that call having succeeded, the response body cannot be deserialized; when
`PostJSONWithBody` fails, `*response` keeps its value; and the status code has no
influence: against a transport that fails on the same requests and answers with
the same bodies, whatever its status codes, `PostJSON` returns the same error and
writes the same value. -/
theorem PostJSON_error_iff_and_status_blind {α τ : Type} (env : Env α τ) (url : GoString)
    (params : Option α) (v : τ) (w : World) :
    ((PostJSON env url params v w).1 ≠ none ↔
      (PostJSONWithBody env url params w).1.2.2 ≠ none ∨
      ((PostJSONWithBody env url params w).1.2.2 = none ∧
        (env.unmarshal (PostJSONWithBody env url params w).1.2.1 v).2 ≠ none)) ∧
    ((PostJSONWithBody env url params w).1.2.2 ≠ none → (PostJSON env url params v w).2.1 = v) ∧
    (∀ env2 : Env α τ, env2.marshal = env.marshal → env2.unmarshal = env.unmarshal →
      (∀ req, (env2.fasthttpDo req).1 = (env.fasthttpDo req).1 ∧
        (env2.fasthttpDo req).2.body = (env.fasthttpDo req).2.body) →
      (PostJSON env2 url params v w).1 = (PostJSON env url params v w).1 ∧
      (PostJSON env2 url params v w).2.1 = (PostJSON env url params v w).2.1) := by
  refine ⟨?_, ?_, ?_⟩
  · unfold PostJSON
    rcases h : PostJSONWithBody env url params w with ⟨⟨st, body, err⟩, w2⟩
    cases err <;> simp
  · unfold PostJSON
    rcases h : PostJSONWithBody env url params w with ⟨⟨st, body, err⟩, w2⟩
    cases err <;> simp
  · intro env2 hm hu hd
    have hfill : ∀ r0 : FastRequest, ∀ raw, r0.fill url raw = jsonPostRequest url raw :=
      fun _ _ => rfl
    unfold PostJSON PostJSONWithBody
    rw [hm, hu]
    rcases hmar : env.marshal params with ⟨raw, merr⟩
    cases merr with
    | some e => simp
    | none =>
      simp only [hfill]
      have h1 := (hd (jsonPostRequest url raw)).1
      have h2 := (hd (jsonPostRequest url raw)).2
      rcases hd2 : env2.fasthttpDo (jsonPostRequest url raw) with ⟨e2, r2⟩
      rcases hd1 : env.fasthttpDo (jsonPostRequest url raw) with ⟨e1, r1⟩
      rw [hd2, hd1] at h1 h2
      simp only at h1 h2
      subst h1
      cases e2 with
      | some e => simp
      | none => simp [h2]



set_option maxRecDepth 100000 in
theorem lowerhex_plain : ∀ c : Byte,
    isTSpecial (lowerhex (c.val / 16)) = false ∧ isTSpecial (lowerhex (c.val % 16)) = false := by
  decide

/-- The random boundary needs no quotes in the `Content-Type` header. -/
theorem randomBoundary_plain (random : GoString) :
    (randomBoundary random).any isTSpecial = false := by
  rw [List.any_eq_false]
  intro c hc
  simp only [randomBoundary, List.mem_flatMap] at hc
  obtain ⟨b, _, hb⟩ := hc
  simp only [List.mem_cons, List.mem_singleton, List.not_mem_nil, or_false] at hb
  rcases hb with rfl | rfl
  · simp [(lowerhex_plain b).1]
  · simp [(lowerhex_plain b).2]

theorem FormDataContentType_eq {α τ : Type} (env : Env α τ) (buf : GoString) (lp : Bool) :
    Writer.FormDataContentType ⟨buf, randomBoundary env.boundaryBytes, lp⟩ =
      str "multipart/form-data; boundary=" ++ randomBoundary env.boundaryBytes := by
  simp only [Writer.FormDataContentType, randomBoundary_plain]
  simp

/-- What `PostForm` does once the part is created and the reader is read without
error. -/
theorem PostForm_of_body_ok {α τ : Type} (env : Env α τ) (url field filename : GoString)
    (reader : Reader) (v : τ) (w : World) (hc : env.createPartErr = none)
    (hr : reader.err = none) :
    PostForm env url field filename reader v w =
      match newPostRequest url
          (str "multipart/form-data; boundary=" ++ randomBoundary env.boundaryBytes)
          (multipartBody (randomBoundary env.boundaryBytes) field filename reader.data) with
      | .err err => (some (.withStack err), v, w)
      | .ok req =>
        match env.httpDo req with
        | .err err => (some (.withStack err), v, { w with trace := w.trace ++ [.httpSend req] })
        | .ok resp =>
          ((env.decode resp.body v).2, (env.decode resp.body v).1,
            { w with trace := w.trace ++ [.httpSend req, .closeBody] }) := by
  have hbody : (NewWriter env).buf ++ str "--" ++ (NewWriter env).boundary ++ str "\r\n" ++
      formFileHeader field filename ++ reader.data ++ str "\r\n--" ++ (NewWriter env).boundary ++
      str "--\r\n" = multipartBody (randomBoundary env.boundaryBytes) field filename reader.data := by
    simp [NewWriter, multipartBody]
  unfold PostForm
  simp only [Writer.CreateFormFile, hc, Writer.copyFrom, hr, Writer.Close]
  have hl : (NewWriter env).lastpart = false := rfl
  simp only [hl, Bool.false_eq_true, if_false]
  have hb : (NewWriter env).boundary = randomBoundary env.boundaryBytes := rfl
  rw [hb] at hbody ⊢
  rw [FormDataContentType_eq]
  simp only [List.append_assoc] at hbody ⊢
  rw [hbody]
  cases hreq : newPostRequest url
      (str "multipart/form-data; boundary=" ++ randomBoundary env.boundaryBytes)
      (multipartBody (randomBoundary env.boundaryBytes) field filename reader.data) with
  | err e => rfl
  | ok req =>
    simp only [clientDo]
    cases env.httpDo req with
    | err e => rfl
    | ok resp => simp



theorem newPostRequest_ok (url ct body : GoString) (req : HttpRequest)
    (h : newPostRequest url ct body = .ok req) :
    req.method = str "POST" ∧ req.contentType = ct ∧ req.body = body := by
  unfold newPostRequest at h
  split at h
  · cases h
  · cases h; exact ⟨rfl, rfl, rfl⟩

theorem consumeQuotedLoop_quote (rest : GoString) :
    consumeQuotedLoop (34 :: rest) = some ([], rest) := by
  cases rest with
  | nil => simp [consumeQuotedLoop]
  | cons d r => simp [consumeQuotedLoop]

theorem consumeQuotedLoop_escaped (c : Byte) (rest : GoString) (h : c = 92 ∨ c = 34) :
    consumeQuotedLoop (92 :: c :: rest) =
      (consumeQuotedLoop rest).map (fun r => (c :: r.1, r.2)) := by
  have h1 : isMimeTSpecial c = true := by rcases h with rfl | rfl <;> decide
  rw [consumeQuotedLoop]
  simp [h1]

theorem consumeQuotedLoop_plain (c d : Byte) (rest : GoString)
    (h : c ≠ 92 ∧ c ≠ 34 ∧ c ≠ 10 ∧ c ≠ 13) :
    consumeQuotedLoop (c :: d :: rest) =
      (consumeQuotedLoop (d :: rest)).map (fun r => (c :: r.1, r.2)) := by
  rw [consumeQuotedLoop]
  simp [h.1, h.2.1, h.2.2.1, h.2.2.2]

/-- Reading back what `escapeQuotes` wrote between quotes gives the text, when
the text holds no line break. -/
theorem consumeQuotedLoop_escapeQuotes (s rest : GoString) (h : ∀ c ∈ s, c ≠ 10 ∧ c ≠ 13) :
    consumeQuotedLoop (escapeQuotes s ++ 34 :: rest) = some (s, rest) := by
  induction s with
  | nil => exact consumeQuotedLoop_quote rest
  | cons c s ih =>
    have ih2 := ih (fun x hx => h x (List.mem_cons_of_mem _ hx))
    have hc := h c (List.mem_cons_self _ _)
    have hcons : escapeQuotes (c :: s) ++ 34 :: rest =
        (if c = 92 || c = 34 then [92, c]
         else if c = 10 then [37, 48, 65]
         else if c = 13 then [37, 48, 68]
         else [c]) ++ (escapeQuotes s ++ 34 :: rest) := by
      simp [escapeQuotes]
    rw [hcons]
    by_cases hq : c = 92 ∨ c = 34
    · have : (c = 92 || c = 34) = true := by simpa using hq
      rw [if_pos this]
      simp only [List.cons_append, List.nil_append]
      rw [consumeQuotedLoop_escaped c _ hq, ih2]
      rfl
    · have : ¬ ((c = 92 || c = 34) = true) := by simpa using hq
      rw [if_neg this, if_neg hc.1, if_neg hc.2]
      simp only [not_or] at hq
      obtain ⟨d, r, hd⟩ : ∃ d r, escapeQuotes s ++ 34 :: rest = d :: r := by
        cases hes : escapeQuotes s with
        | nil => exact ⟨34, rest, rfl⟩
        | cons d r => exact ⟨d, r ++ 34 :: rest, rfl⟩
      simp only [List.cons_append, List.nil_append]
      rw [hd, consumeQuotedLoop_plain c d r ⟨hq.1, hq.2, hc.1, hc.2⟩, ← hd, ih2]
      rfl

theorem consumeQuoted_escapeQuotes (s : GoString) (h : ∀ c ∈ s, c ≠ 10 ∧ c ≠ 13) :
    consumeQuoted (34 :: escapeQuotes s ++ [34]) = some (s, []) := by
  rw [List.cons_append, consumeQuoted, if_pos rfl]
  exact consumeQuotedLoop_escapeQuotes s [] h

/-- The bytes of the message that `PostForm` builds, with the quoted `name` and
`filename` parameters set apart. -/
theorem multipartBody_eq (boundary field filename data : GoString) :
    multipartBody boundary field filename data =
      str "--" ++ boundary ++ str "\r\nContent-Disposition: form-data; name=" ++
        (34 :: escapeQuotes field ++ [34]) ++ str "; filename=" ++
        (34 :: escapeQuotes filename ++ [34]) ++
        str "\r\nContent-Type: application/octet-stream\r\n\r\n" ++ data ++ str "\r\n--" ++
        boundary ++ str "--\r\n" := by
  have h1 : str "\r\n" ++ str "Content-Disposition: form-data; name=\"" =
      str "\r\nContent-Disposition: form-data; name=" ++ [34] := by decide
  have h2 : str "\"; filename=\"" = [34] ++ str "; filename=" ++ [34] := by decide
  have h3 : str "\"\r\n" ++ str "Content-Type: application/octet-stream\r\n" ++ str "\r\n" =
      [34] ++ str "\r\nContent-Type: application/octet-stream\r\n\r\n" := by decide
  unfold multipartBody formFileHeader
  rw [h2]
  simp only [List.append_assoc, List.cons_append, List.nil_append, List.singleton_append]
  rw [← List.append_assoc (str "\r\n") (str "Content-Disposition: form-data; name=\""), h1]
  rw [← List.append_assoc (str "\"\r\n") _ (str "\r\n" ++ _),
    ← List.append_assoc (str "\"\r\n" ++ _) (str "\r\n") _, h3]
  simp only [List.append_assoc, List.cons_append, List.nil_append, List.singleton_append]

/-- C8 (as amended): for a field name and a file name without line breaks (no
carriage return, no line feed), `PostForm` sends a request only after the multipart
writer is closed.  Every request it sends is a `POST` whose body is the boundary
line, the header of one file part, all the bytes read from the reader and the
terminating boundary line, and whose `Content-Type` is `multipart/form-data;
boundary=` followed by the same boundary; in the header of the part the `name`
and `filename` parameters are quoted strings that a reader of the message
(`mime.ParseMediaType`) decodes to the given field name and file name.  Such a
request is sent whenever the part is created, the reader is read to its end and
the URL parses.  If creating the part fails, or reading from the reader fails,
`PostForm` returns that error (wrapped), leaves `*response` as it is and sends
nothing. -/
theorem PostForm_sends_closed_multipart {α τ : Type} (env : Env α τ)
    (url field filename : GoString) (reader : Reader) (v : τ) (w : World)
    (hfield : ∀ c ∈ field, c ≠ 10 ∧ c ≠ 13) (hfilename : ∀ c ∈ filename, c ≠ 10 ∧ c ≠ 13) :
    (∀ e, env.createPartErr = some e →
      PostForm env url field filename reader v w = (some (.withStack e), v, w)) ∧
    (∀ e, env.createPartErr = none → reader.err = some e →
      PostForm env url field filename reader v w = (some (.withStack e), v, w)) ∧
    (∃ name fname suffix,
      consumeQuoted name = some (field, []) ∧ consumeQuoted fname = some (filename, []) ∧
      (PostForm env url field filename reader v w).2.2.trace = w.trace ++ suffix ∧
      (∀ req, Event.httpSend req ∈ suffix →
        env.createPartErr = none ∧ reader.err = none ∧ req.method = str "POST" ∧
        req.body =
          str "--" ++ randomBoundary env.boundaryBytes ++
            str "\r\nContent-Disposition: form-data; name=" ++ name ++ str "; filename=" ++
            fname ++ str "\r\nContent-Type: application/octet-stream\r\n\r\n" ++ reader.data ++
            str "\r\n--" ++ randomBoundary env.boundaryBytes ++ str "--\r\n" ∧
        req.contentType =
          str "multipart/form-data; boundary=" ++ randomBoundary env.boundaryBytes) ∧
      (∀ u, env.createPartErr = none → reader.err = none → Parse url = .ok u →
        Event.httpSend
          { method := str "POST", url := { u with Host := removeEmptyPort u.Host },
            contentType := str "multipart/form-data; boundary=" ++ randomBoundary env.boundaryBytes,
            body :=
          str "--" ++ randomBoundary env.boundaryBytes ++
            str "\r\nContent-Disposition: form-data; name=" ++ name ++ str "; filename=" ++
            fname ++ str "\r\nContent-Type: application/octet-stream\r\n\r\n" ++ reader.data ++
            str "\r\n--" ++ randomBoundary env.boundaryBytes ++ str "--\r\n" }
          ∈ (PostForm env url field filename reader v w).2.2.trace)) := by
  refine ⟨?_, ?_, ?_⟩
  · intro e he
    simp [PostForm, Writer.CreateFormFile, he]
  · intro e hc he
    simp [PostForm, Writer.CreateFormFile, hc, Writer.copyFrom, he]
  · have hsent : ∀ u, env.createPartErr = none → reader.err = none → Parse url = .ok u →
        Event.httpSend
          { method := str "POST", url := { u with Host := removeEmptyPort u.Host },
            contentType := str "multipart/form-data; boundary=" ++ randomBoundary env.boundaryBytes,
            body := multipartBody (randomBoundary env.boundaryBytes) field filename reader.data }
          ∈ (PostForm env url field filename reader v w).2.2.trace := by
      intro u hc hr hu
      rw [PostForm_of_body_ok env url field filename reader v w hc hr]
      simp only [newPostRequest, hu]
      cases hd : env.httpDo _ with
      | err e => simp
      | ok resp => simp
    have hpre : ∃ suffix,
        (PostForm env url field filename reader v w).2.2.trace = w.trace ++ suffix ∧
        ∀ req, Event.httpSend req ∈ suffix →
          env.createPartErr = none ∧ reader.err = none ∧ req.method = str "POST" ∧
          req.body = multipartBody (randomBoundary env.boundaryBytes) field filename reader.data ∧
          req.contentType =
            str "multipart/form-data; boundary=" ++ randomBoundary env.boundaryBytes := by
      cases hc : env.createPartErr with
      | some e =>
        refine ⟨[], ?_, ?_⟩
        · simp [PostForm, Writer.CreateFormFile, hc]
        · intro req h; simp at h
      | none =>
        cases hr : reader.err with
        | some e =>
          refine ⟨[], ?_, ?_⟩
          · simp [PostForm, Writer.CreateFormFile, hc, Writer.copyFrom, hr]
          · intro req h; simp at h
        | none =>
          rw [PostForm_of_body_ok env url field filename reader v w hc hr]
          cases hreq : newPostRequest url
              (str "multipart/form-data; boundary=" ++ randomBoundary env.boundaryBytes)
              (multipartBody (randomBoundary env.boundaryBytes) field filename reader.data) with
          | err e => exact ⟨[], by simp, by intro req h; simp at h⟩
          | ok req =>
            have hq := newPostRequest_ok _ _ _ _ hreq
            dsimp only
            cases hd : env.httpDo req with
            | err e =>
              refine ⟨[.httpSend req], rfl, ?_⟩
              intro r hmem
              simp only [List.mem_singleton, Event.httpSend.injEq] at hmem
              subst hmem
              exact ⟨rfl, rfl, hq.1, hq.2.2, hq.2.1⟩
            | ok resp =>
              refine ⟨[.httpSend req, .closeBody], rfl, ?_⟩
              intro r hmem
              simp only [List.mem_cons, Event.httpSend.injEq, List.mem_singleton, reduceCtorEq,
                or_false, List.not_mem_nil] at hmem
              subst hmem
              exact ⟨rfl, rfl, hq.1, hq.2.2, hq.2.1⟩
    obtain ⟨suffix, htrace, hall⟩ := hpre
    refine ⟨34 :: escapeQuotes field ++ [34], 34 :: escapeQuotes filename ++ [34], suffix,
      consumeQuoted_escapeQuotes field hfield, consumeQuoted_escapeQuotes filename hfilename,
      htrace, ?_, ?_⟩
    · intro req hreq
      have := hall req hreq
      rw [multipartBody_eq] at this
      exact this
    · intro u hc hr hu
      have := hsent u hc hr hu
      rw [multipartBody_eq] at this
      exact this

theorem PostForm_filesOpen {α τ : Type} (env : Env α τ) (url field filename : GoString)
    (reader : Reader) (v : τ) (w : World) :
    (PostForm env url field filename reader v w).2.2.filesOpen = w.filesOpen := by
  cases hc : env.createPartErr with
  | some e => simp [PostForm, Writer.CreateFormFile, hc]
  | none =>
    cases hr : reader.err with
    | some e => simp [PostForm, Writer.CreateFormFile, hc, Writer.copyFrom, hr]
    | none =>
      rw [PostForm_of_body_ok env url field filename reader v w hc hr]
      cases hreq : newPostRequest url _ _ with
      | err e => rfl
      | ok req =>
        dsimp only
        cases hd : env.httpDo req with
        | err e => rfl
        | ok resp => rfl

/-- C9: if `os.Open` fails, `PostFormByFile` returns its error (wrapped), sends
nothing, writes nothing into `*response` and leaves the world as it is.  If the
file opens, `PostFormByFile` returns the error and the response value that
`PostForm` returns for the file as reader, and on every path through `PostForm`
the file is closed after `PostForm` has returned: the trace ends with the close
event and the number of open files is what it was before the call. -/
theorem PostFormByFile_open_and_close {α τ : Type} (env : Env α τ)
    (url field filename : GoString) (v : τ) (w : World) :
    (∀ e, env.osOpen filename = .err e →
      PostFormByFile env url field filename v w = (some (.withStack e), v, w)) ∧
    (∀ file, env.osOpen filename = .ok file →
      (PostFormByFile env url field filename v w).1 =
        (PostForm env url field filename file v
          { w with filesOpen := w.filesOpen + 1, trace := w.trace ++ [.openFile filename] }).1 ∧
      (PostFormByFile env url field filename v w).2.1 =
        (PostForm env url field filename file v
          { w with filesOpen := w.filesOpen + 1, trace := w.trace ++ [.openFile filename] }).2.1 ∧
      (PostFormByFile env url field filename v w).2.2.trace =
        (PostForm env url field filename file v
          { w with filesOpen := w.filesOpen + 1,
                   trace := w.trace ++ [.openFile filename] }).2.2.trace ++
          [.closeFile filename] ∧
      (PostFormByFile env url field filename v w).2.2.filesOpen = w.filesOpen) := by
  refine ⟨?_, ?_⟩
  · intro e he
    simp [PostFormByFile, he]
  · intro file hf
    have hfo := PostForm_filesOpen env url field filename file v
      { w with filesOpen := w.filesOpen + 1, trace := w.trace ++ [.openFile filename] }
    simp only [PostFormByFile, hf, hfo, true_and]
    omega

/-- C10: with nil `params`, `PostJSONWithBody2` is `http.Post` with an empty body;
with other `params` it is `http.Post` with the serialized payload, or, when
serialization fails, the wrapped error with no response and an untouched world.
The content type passed is `application/json; charset=utf-8` in both cases, and
when the URL parses exactly one request goes out: a `POST` with that content
type and that body, to the parsed URL (an empty port removed from its host). -/
theorem PostJSONWithBody2_request {α τ : Type} (env : Env α τ) (url : GoString)
    (params : Option α) (w : World) :
    (params = none →
      PostJSONWithBody2 env url params w =
        httpPost env url (str "application/json; charset=utf-8") [] w) ∧
    (∀ raw, params ≠ none → env.marshal params = (raw, none) →
      PostJSONWithBody2 env url params w =
        httpPost env url (str "application/json; charset=utf-8") raw w) ∧
    (∀ raw err, params ≠ none → env.marshal params = (raw, some err) →
      PostJSONWithBody2 env url params w = (.err (.withStack err), w)) ∧
    (∀ body u, Parse url = .ok u →
      httpPost env url (str "application/json; charset=utf-8") body w =
        (env.httpDo ⟨str "POST", { u with Host := removeEmptyPort u.Host },
            str "application/json; charset=utf-8", body⟩,
          { w with trace := w.trace ++
              [.httpSend ⟨str "POST", { u with Host := removeEmptyPort u.Host },
                str "application/json; charset=utf-8", body⟩] })) ∧
    (∀ body e, Parse url = .err e →
      httpPost env url (str "application/json; charset=utf-8") body w = (.err e, w)) := by
  refine ⟨?_, ?_, ?_, ?_, ?_⟩
  · intro h; subst h; rfl
  · intro raw hp hm
    cases params with
    | none => exact absurd rfl hp
    | some p => simp [PostJSONWithBody2, hm]
  · intro raw err hp hm
    cases params with
    | none => exact absurd rfl hp
    | some p => simp [PostJSONWithBody2, hm]
  · intro body u hu
    simp [httpPost, newPostRequest, hu, clientDo]
  · intro body e he
    simp [httpPost, newPostRequest, he]

/-! ### The request helpers on concrete inputs -/

/-- Witness for C6: the three exit paths of `PostJSONWithBody` on a concrete
environment, starting from a world with three requests and one response
outstanding. -/
theorem PostJSONWithBody_releases_pooled_witness :
    (PostJSONWithBody (demoEnv 201 false false) (str "http://h/") none
        { requestsOut := 3, responsesOut := 1 }).2.requestsOut = 3 ∧
    PostJSONWithBody (demoEnv 201 false false) (str "http://h/") none
        { requestsOut := 3, responsesOut := 1 } =
      ((201, some (str "echo:{}"), none),
        { requestsOut := 3, responsesOut := 1,
          trace := [.acquireRequest, .acquireResponse,
            .fasthttpDo (jsonPostRequest (str "http://h/") (str "{}")),
            .releaseResponse, .releaseRequest] }) ∧
    PostJSONWithBody (demoEnv 201 true false) (str "http://h/") none
        { requestsOut := 3, responsesOut := 1 } =
      ((0, none, some (.withStack (.external 1))), { requestsOut := 3, responsesOut := 1 }) ∧
    PostJSONWithBody (demoEnv 201 false true) (str "http://h/") none
        { requestsOut := 3, responsesOut := 1 } =
      ((0, none, some (.withStack (.external 4))),
        { requestsOut := 3, responsesOut := 1,
          trace := [.acquireRequest, .acquireResponse,
            .fasthttpDo (jsonPostRequest (str "http://h/") (str "{}")),
            .releaseResponse, .releaseRequest] }) :=
  ⟨(PostJSONWithBody_releases_pooled (demoEnv 201 false false) (str "http://h/") none
      { requestsOut := 3, responsesOut := 1 }).1,
   by decide, by decide, by decide⟩

/-- Witness for C7: the same body with status 200 and with status 500 gives the
same result; a failing transport leaves the response as it was. -/
theorem PostJSON_error_iff_and_status_blind_witness :
    PostJSON (demoEnv 200 false false) (str "http://h/") none (str "old") {} =
      (none, str "echo:{}", { trace := [.acquireRequest, .acquireResponse,
          .fasthttpDo (jsonPostRequest (str "http://h/") (str "{}")),
          .releaseResponse, .releaseRequest] }) ∧
    (PostJSON (demoEnv 500 false false) (str "http://h/") none (str "old") {}).1 =
      (PostJSON (demoEnv 200 false false) (str "http://h/") none (str "old") {}).1 ∧
    (PostJSON (demoEnv 500 false false) (str "http://h/") none (str "old") {}).2.1 =
      (PostJSON (demoEnv 200 false false) (str "http://h/") none (str "old") {}).2.1 ∧
    (PostJSON (demoEnv 200 false true) (str "http://h/") none (str "old") {}).1 =
      some (.withStack (.withStack (.external 4))) ∧
    (PostJSON (demoEnv 200 false true) (str "http://h/") none (str "old") {}).2.1 = str "old" :=
  ⟨by decide,
   ((PostJSON_error_iff_and_status_blind (demoEnv 200 false false) (str "http://h/") none
      (str "old") {}).2.2 (demoEnv 500 false false) rfl rfl (fun _ => ⟨rfl, rfl⟩)).1,
   ((PostJSON_error_iff_and_status_blind (demoEnv 200 false false) (str "http://h/") none
      (str "old") {}).2.2 (demoEnv 500 false false) rfl rfl (fun _ => ⟨rfl, rfl⟩)).2,
   by decide, by decide⟩

/-- Witness for C8: the one request `PostForm` sends on a concrete environment. -/
theorem PostForm_sends_closed_multipart_witness :
    randomBoundary (demoEnv 200 false false).boundaryBytes = str "ab01" ∧
    (PostForm (demoEnv 200 false false) (str "http://h/up") (str "file") (str "a.txt")
        ⟨str "DATA", none⟩ (str "old") {}).2.2.trace =
      [.httpSend
          { method := str "POST",
            url := { Scheme := str "http", Host := str "h", Path := str "/up" },
            contentType := str "multipart/form-data; boundary=ab01",
            body := str "--ab01\r\nContent-Disposition: form-data; name=\"file\"; filename=\"a.txt\"\r\nContent-Type: application/octet-stream\r\n\r\nDATA\r\n--ab01--\r\n" },
        .closeBody] ∧
    PostForm (demoEnv 200 false false) (str "http://h/up") (str "file") (str "a.txt")
        ⟨str "DA", some (.external 9)⟩ (str "old") {} =
      (some (.withStack (.external 9)), str "old", {}) :=
  ⟨by decide, by decide,
   (PostForm_sends_closed_multipart (demoEnv 200 false false) (str "http://h/up") (str "file")
      (str "a.txt") ⟨str "DA", some (.external 9)⟩ (str "old") {}
      (by simp [str]; decide) (by simp [str]; decide)).2.1
      (.external 9) rfl rfl⟩

/-- Counterexample for C8 as stated: for the field name `a`, line feed, `b` the
request that `PostForm` sends carries `name="a%0Ab"` in the header of its part
(`mime/multipart` writes `%0A` for a line feed), and a reader of the message
decodes that parameter to the six bytes `a%0Ab`, not to the given field name. -/
theorem PostForm_field_line_break_rewritten :
    (PostForm (demoEnv 200 false false) (str "http://h/up") (str "a\nb") (str "a.txt")
        ⟨str "DATA", none⟩ (str "old") {}).2.2.trace =
      [.httpSend
          { method := str "POST",
            url := { Scheme := str "http", Host := str "h", Path := str "/up" },
            contentType := str "multipart/form-data; boundary=ab01",
            body := str "--ab01\r\nContent-Disposition: form-data; name=\"a%0Ab\"; filename=\"a.txt\"\r\nContent-Type: application/octet-stream\r\n\r\nDATA\r\n--ab01--\r\n" },
        .closeBody] ∧
    consumeQuoted (str "\"a%0Ab\"") = some (str "a%0Ab", []) ∧
    str "a%0Ab" ≠ str "a\nb" :=
  ⟨by decide, by decide, by decide⟩

/-- Witness for C9: a file that cannot be opened, and one that can. -/
theorem PostFormByFile_open_and_close_witness :
    PostFormByFile (demoEnv 200 false false) (str "http://h/up") (str "file")
        (str "/nonexistent/path") (str "old") {} =
      (some (.withStack (.external 6)), str "old", {}) ∧
    (PostFormByFile (demoEnv 200 false false) (str "http://h/up") (str "file") (str "a.txt")
        (str "old") {}).2.2.filesOpen = 0 ∧
    ((PostFormByFile (demoEnv 200 false false) (str "http://h/up") (str "file") (str "a.txt")
        (str "old") {}).2.2.trace.map
      (fun e => match e with
        | .openFile _ => 1
        | .httpSend _ => 2
        | .closeBody => 3
        | .closeFile _ => 4
        | _ => 0)) = [1, 2, 3, 4] ∧
    ((PostFormByFile (demoEnv 200 false true) (str "http://h/up") (str "file") (str "a.txt")
        (str "old") {}).2.2.trace.map
      (fun e => match e with
        | .openFile _ => 1
        | .httpSend _ => 2
        | .closeBody => 3
        | .closeFile _ => 4
        | _ => 0)) = [1, 2, 4] :=
  ⟨(PostFormByFile_open_and_close (demoEnv 200 false false) (str "http://h/up") (str "file")
      (str "/nonexistent/path") (str "old") {}).1 (.external 6) (by decide),
   by decide, by decide, by decide⟩

/-- Witness for C10: nil parameters send an empty body, other parameters their
serialization, and a failing serialization sends nothing. -/
theorem PostJSONWithBody2_request_witness :
    PostJSONWithBody2 (demoEnv 200 false false) (str "http://h/") none {} =
      (.ok ⟨200, str "len:" ++ [0]⟩,
        { trace := [.httpSend ⟨str "POST", { Scheme := str "http", Host := str "h", Path := str "/" },
            str "application/json; charset=utf-8", []⟩] }) ∧
    PostJSONWithBody2 (demoEnv 200 false false) (str "http://h/") (some ()) {} =
      (.ok ⟨200, str "len:" ++ [2]⟩,
        { trace := [.httpSend ⟨str "POST", { Scheme := str "http", Host := str "h", Path := str "/" },
            str "application/json; charset=utf-8", str "{}"⟩] }) ∧
    PostJSONWithBody2 (demoEnv 200 true false) (str "http://h/") (some ()) {} =
      (.err (.withStack (.external 1)), {}) :=
  ⟨by decide, by decide,
   (PostJSONWithBody2_request (demoEnv 200 true false) (str "http://h/") (some ()) {}).2.2.1
      [] (.external 1) (by decide) (by decide)⟩

/-- Witness for C4: a key with two values, a key with an escaped value and an
absent key. -/
theorem GetQuery_first_value_witness :
    GetQuery (some ⟨some { Path := str "/p", RawQuery := str "a=1&b=%20x&a=3" }⟩) (str "a") =
      some (str "1") ∧
    GetQuery (some ⟨some { Path := str "/p", RawQuery := str "a=1&b=%20x&a=3" }⟩) (str "b") =
      some (str " x") ∧
    GetQuery (some ⟨some { Path := str "/p", RawQuery := str "a=1&b=%20x&a=3" }⟩) (str "c") =
      some [] :=
  ⟨(GetQuery_first_value ⟨some { Path := str "/p", RawQuery := str "a=1&b=%20x&a=3" }⟩
      { Path := str "/p", RawQuery := str "a=1&b=%20x&a=3" } (str "a") rfl).2.1
      (str "1") [str "3"] (by decide),
   by decide,
   (GetQuery_first_value ⟨some { Path := str "/p", RawQuery := str "a=1&b=%20x&a=3" }⟩
      { Path := str "/p", RawQuery := str "a=1&b=%20x&a=3" } (str "c") rfl).2.2.1
      (by decide)⟩

/-! ### Checks of the embedding on concrete inputs -/

theorem check_QueryEscape : QueryEscape (str "a b&c=d/~") = str "a+b%26c%3Dd%2F~" := by decide

theorem check_QueryUnescape :
    QueryUnescape (str "a+b%26c%3Dd%2f~") = (str "a b&c=d/~", none) ∧
    QueryUnescape (str "a%2") = ([], some (.escapeError (str "%2"))) ∧
    QueryUnescape (str "a%zz1") = ([], some (.escapeError (str "%zz"))) := by decide

theorem check_ParseQuery :
    ParseQuery (str "a=1&b=2&a=3&&c&=x&d=%zz&e;f=1") =
      ([(str "a", [str "1", str "3"]), (str "b", [str "2"]), (str "c", [[]]), ([], [str "x"])],
        some .invalidSemicolon) := by decide

theorem check_Encode :
    Values.Encode [(str "b", [str "2", str "x y"]), (str "a", [str "1"]), ([], [str "&"])] =
      str "=%26&a=1&b=2&b=x+y" := by decide

theorem check_Parse :
    Parse (str "http://user:pw@example.com:8080/a%20b/c?x=1&y=2#frag") =
      .ok { Scheme := str "http", User := some ⟨str "user", str "pw", true⟩,
            Host := str "example.com:8080", Path := str "/a b/c", RawQuery := str "x=1&y=2",
            Fragment := str "frag" } ∧
    Parse (str ":foo") = .err (.parseError (str ":foo") .missingProtocolScheme) := by decide

theorem check_String :
    (match Parse (str "HTTP://h/p?q#f") with | .ok u => u.String | .err _ => []) =
      str "http://h/p?q#f" ∧
    (match Parse (str "mailto:a@b.c?subject=x") with | .ok u => u.String | .err _ => []) =
      str "mailto:a@b.c?subject=x" := by decide

theorem check_multipartBody :
    multipartBody (str "b0") (str "file") (str "a\"b.txt") (str "DATA") =
      str "--b0\r\nContent-Disposition: form-data; name=\"file\"; filename=\"a\\\"b.txt\"\r\nContent-Type: application/octet-stream\r\n\r\nDATA\r\n--b0--\r\n" := by
  decide

end HttpClient
